import Mathlib

/-!
# SHDP core: a shallow embedding of the bit codec, frame layer and v1 event codecs

This file embeds the core of the SHDP protocol implementation
(src/protocol/managers/bits/encoder.rs, decoder.rs, src/protocol/versions.rs,
src/protocol/client/bits/utils.rs, src/protocol/server/bits/utils.rs and the
version-1 event codecs) and proves the frozen claims about it.

Modelling conventions:
* A bitvec BitVec with u8 storage and a given bit order is modelled by its
  logical bit sequence, a List Bool; the two bit orders (Msb0, Lsb0) only
  differ in how the sequence is packed into bytes (into_vec) and unpacked
  from bytes (from_slice), which is modelled explicitly.
* Machine integers are Nat with explicit reductions modulo 2 ^ 32 (u32),
  2 ^ 16 (u16) and 2 ^ 8 (u8) where the Rust code truncates.
* Fallible Rust code returning Result is modelled with Except; code that can
  additionally panic (index out of bounds, unwrap) returns PResult, whose
  crash constructor marks a Rust panic.
* Rust strings are modelled as lists of Unicode code points (List Nat).
-/

namespace SHDP

/-- Error kinds, from src/protocol/errors.rs (variants not used by any claim
are elided from the enumeration but keep their distinct identities). -/
inductive ErrorKind where
  | BadRequest
  | Unauthorized
  | NotFound
  | InternalServerError
  | SizeConstraintViolation
  | ProtocolError
  | UnknownVersion
  deriving DecidableEq, Repr

/-- The Error struct of src/protocol/errors.rs: numeric code, message, kind. -/
structure Error where
  code : Nat
  message : String
  kind : ErrorKind
  deriving DecidableEq, Repr

/-- Result of an operation that can also panic in Rust (index out of bounds,
unwrap on Err/None). crash marks a Rust panic. -/
inductive PResult (α : Type) where
  | ok (a : α)
  | err (e : Error)
  | crash
  deriving DecidableEq, Repr

/-- Big-endian-within-field bit pattern of the low n bits of v: bit n-1 first,
bit 0 last.  This is the push order of BitEncoder::add_data
(for i in (0..n).rev() { push((data >> i) & 1 == 1) }). -/
def toBits (n : Nat) (v : Nat) : List Bool :=
  (List.range n).reverse.map (fun i => Nat.testBit v i)

/-- Value of a bit list read big-endian (first bit is the most significant). -/
def beVal (l : List Bool) : Nat :=
  l.foldl (fun a b => 2 * a + (cond b 1 0)) 0

/-- The byte value stored by bitvec Lsb0 packing for one chunk of at most 8
logical bits: logical bit j lands at bit position j (from the least
significant end); missing trailing bits are zero. -/
def lsbByte (c : List Bool) : Nat :=
  c.foldr (fun b a => 2 * a + (cond b 1 0)) 0

/-- The byte value stored by bitvec Msb0 packing for one chunk of at most 8
logical bits: logical bit j lands at bit position 7 - j; missing trailing
bits are zero. -/
def msbByte (c : List Bool) : Nat :=
  (c.foldl (fun a b => 2 * a + (cond b 1 0)) 0) * 2 ^ (8 - c.length)

/-- Split a bit sequence into consecutive chunks of 8 (the last chunk may be
shorter), as bitvec storage does. -/
def chunks8 : List Bool → List (List Bool)
  | [] => []
  | b1 :: b2 :: b3 :: b4 :: b5 :: b6 :: b7 :: b8 :: rest =>
      [b1, b2, b3, b4, b5, b6, b7, b8] :: chunks8 rest
  | l => [l]

/-- u8::reverse_bits: bit j of the result is bit 7 - j of the argument.
Models the reverse_bits call in BitEncoder::reverse_bits_in_bytes. -/
def reverseBits8 (x : Nat) : Nat :=
  (List.range 8).foldl (fun a j => a + (cond (Nat.testBit x j) 1 0) * 2 ^ (7 - j)) 0

/-- The two bit orders of the bitvec crate as used by the codec. -/
inductive BitOrd where
  | msb0
  | lsb0
  deriving DecidableEq, Repr

/-- into_vec on a BitVec with u8 storage: pack the logical bit sequence into
bytes according to the bit order. -/
def intoVec (o : BitOrd) (l : List Bool) : List Nat :=
  match o with
  | .lsb0 => (chunks8 l).map lsbByte
  | .msb0 => (chunks8 l).map msbByte

/-- from_slice on a BitVec with u8 storage and Msb0 order: bit i of the
logical sequence is bit 7 - (i mod 8) of byte i / 8. -/
def fromSliceMsb0 (bytes : List Nat) : List Bool :=
  bytes.flatMap (fun b => (List.range 8).map (fun j => Nat.testBit b (7 - j)))

/-- The BitEncoder of src/protocol/managers/bits/encoder.rs: an append-only
bit frame.  The bit order parameter only matters at encode time. -/
structure BitEncoder where
  frame : List Bool
  deriving DecidableEq, Repr

namespace BitEncoder

/-- BitEncoder::new. -/
def new : BitEncoder := ⟨[]⟩

/-- BitEncoder::add_data: reject when the frame would exceed 2^32 bits or
when n > 32, else push the low n bits of data, most significant first.
data is a u32 (only its low 32 bits are ever read, since n ≤ 32). -/
def add_data (e : BitEncoder) (data : Nat) (n : Nat) : Except Error BitEncoder :=
  if e.frame.length + n > 2 ^ 32 then
    .error ⟨0b1000, "Maximum of 2^32 bits allowed", .SizeConstraintViolation⟩
  else if n > 32 then
    .error ⟨0b1000, "Data of more than 32 bits long are not allowed", .SizeConstraintViolation⟩
  else
    .ok ⟨e.frame ++ toBits n data⟩

/-- BitEncoder::add_bytes: eight-bit add_data per byte. -/
def add_bytes (e : BitEncoder) (bytes : List Nat) : Except Error BitEncoder :=
  match bytes with
  | [] => .ok e
  | b :: rest =>
    match e.add_data (b % 2 ^ 8) 8 with
    | .error err => .error err
    | .ok e2 => add_bytes e2 rest

/-- BitEncoder::append_data_from: concatenates the frames, with no check. -/
def append_data_from (e other : BitEncoder) : BitEncoder :=
  ⟨e.frame ++ other.frame⟩

/-- BitEncoder::reverse_bits_in_bytes. -/
def reverse_bits_in_bytes (input : List Nat) : List Nat :=
  input.map reverseBits8

/-- BitEncoder::encode: pack the frame into bytes in the encoder bit order,
then reverse the bits of every byte. -/
def encode (o : BitOrd) (e : BitEncoder) : List Nat :=
  reverse_bits_in_bytes (intoVec o e.frame)

end BitEncoder

/-- The BitDecoder of src/protocol/managers/bits/decoder.rs: the logical bit
sequence plus the read cursor. -/
structure BitDecoder where
  frame : List Bool
  position : Nat
  deriving DecidableEq, Repr

namespace BitDecoder

/-- BitDecoder::new over received bytes, interpreting them in Msb0 order
(the order used by every decoding path of the claims). -/
def new (bytes : List Nat) : BitDecoder :=
  ⟨fromSliceMsb0 bytes, 0⟩

/-- The read loop of BitDecoder::read_data: n times, shift the u32
accumulator left by one (discarding the top bit, as the Rust shift on u32
does), or in the bit at the cursor (false when out of range, as
frame.get(position).unwrap_or(false) does), and advance the cursor. -/
def readLoop : Nat → List Bool → Nat → Nat → Nat × Nat
  | 0, _, pos, data => (data, pos)
  | n + 1, frame, pos, data =>
      readLoop n frame (pos + 1) ((2 * data) % 2 ^ 32 + (cond (frame.getD pos false) 1 0))

/-- BitDecoder::read_data: out-of-bound check, then the read loop. -/
def read_data (d : BitDecoder) (n : Nat) : Except Error (Nat × BitDecoder) :=
  if d.position + n > d.frame.length then
    .error ⟨0b1000, "Out of bound", .SizeConstraintViolation⟩
  else
    let r := readLoop n d.frame d.position 0
    .ok (r.1, ⟨d.frame, r.2⟩)

/-- BitDecoder::read_vec: returns the bits of the range from..to.  The code
only checks from ≥ len; the slice indexing frame[from..to] panics when
to > len or to < from, which the crash result records. -/
def read_vec (d : BitDecoder) (f t : Nat) : PResult (List Bool) :=
  if f ≥ d.frame.length then
    .err ⟨0b1100, "out of bound", .SizeConstraintViolation⟩
  else if f ≤ t ∧ t ≤ d.frame.length then
    .ok ((d.frame.drop f).take (t - f))
  else
    .crash

end BitDecoder

/-- The Version enum of src/protocol/versions.rs. -/
inductive Version where
  | V1
  deriving DecidableEq, Repr

/-- Version::from_u8: 1 maps to V1, everything else is UnknownVersion. -/
def Version.from_u8 (value : Nat) : Except Error Version :=
  if value = 1 then .ok .V1
  else .error ⟨0b1010, "Unknown version", .UnknownVersion⟩

/-- Version::to_u8. -/
def Version.to_u8 : Version → Nat
  | .V1 => 1

/-- The Frame struct of src/protocol/managers/bits/decoder.rs.  Note that
data_size is a u16 field even though 32 bits are read from the wire. -/
structure Frame where
  version : Nat
  data_size : Nat
  event : Nat
  data : List Bool
  deriving DecidableEq, Repr

/-- The padding loop of FrameEncoder::encode: k times add_data(0, 1), each
call re-checking the 2^32 size bound. -/
def padSteps : Nat → BitEncoder → Except Error BitEncoder
  | 0, e => .ok e
  | k + 1, e =>
    match e.add_data 0 1 with
    | .error err => .error err
    | .ok e2 => padSteps k e2

/-- FrameEncoder::encode for an already-produced payload bit sequence:
append the version byte, validate the payload size, append the event id
(a u16) and the size (data_size as u32), append the payload, pad with zero
bits to a byte boundary, and pack.  The bit order o is the type parameter
of the FrameEncoder (Lsb0 on every emission path of the spec). -/
def FrameEncoder.encode (o : BitOrd) (version : Version) (event : Nat)
    (payload : List Bool) : Except Error (List Nat) :=
  match BitEncoder.new.add_data (version.to_u8 % 2 ^ 8) 8 with
  | .error err => .error err
  | .ok e =>
  let data_size := payload.length
  if data_size > 2 ^ 32 then
    .error ⟨0b1000, "Maximum of 2^32 bits allowed", .SizeConstraintViolation⟩
  else if data_size < 8 then
    .error ⟨0b1001, "Minimum of 8 bits allowed", .SizeConstraintViolation⟩
  else
  match e.add_data (event % 2 ^ 16) 16 with
  | .error err => .error err
  | .ok e =>
  match e.add_data (data_size % 2 ^ 32) 32 with
  | .error err => .error err
  | .ok e =>
  let e2 := e.append_data_from ⟨payload⟩
  match padSteps ((8 - e2.frame.length % 8) % 8) e2 with
  | .error err => .error err
  | .ok e3 => .ok (e3.encode o)

/-- FrameDecoder::decode: read version (8 bits), event (16 bits), data size
(32 bits, truncated by the Rust code to u16), then slice the payload with
read_vec(56, 56 + data_size).  Returns the frame together with the advanced
decoder (what FrameDecoder::get_decoder hands to the event decoders; the
method is called by the tests and transports but absent from the sources,
so it is modelled from those call sites as returning the inner decoder). -/
def FrameDecoder.decode (d : BitDecoder) : PResult (Frame × BitDecoder) :=
  match d.read_data 8 with
  | .error e => .err e
  | .ok (v, d) =>
  match d.read_data 16 with
  | .error e => .err e
  | .ok (ev, d) =>
  match d.read_data 32 with
  | .error e => .err e
  | .ok (ds, d) =>
  match d.read_vec 56 (56 + ds % 2 ^ 16) with
  | .err e => .err e
  | .crash => .crash
  | .ok bits => .ok (⟨v % 2 ^ 8, ds % 2 ^ 16, ev % 2 ^ 16, bits⟩, d)

/-! ## The fyve layer (src/protocol/client/bits/utils.rs) -/

/-- OperatingCode: 0b00000 is System, everything else Character. -/
inductive OperatingCode where
  | System
  | Character
  deriving DecidableEq, Repr

/-- OperatingCode::from: 0x0 maps to System, any other fyve to Character. -/
def OperatingCode.fromFyve (fy : Nat) : OperatingCode :=
  if fy = 0x0 then .System else .Character

/-- The system operation codes. -/
inductive OperationCode where
  | Utf8Chain
  | StartOfTag
  | StartOfAttributes
  | StartOfData
  | EndOfData
  | Unknown
  deriving DecidableEq, Repr

/-- OperationCode::from. -/
def OperationCode.fromFyve (fy : Nat) : OperationCode :=
  if fy = 0x00 then .Utf8Chain
  else if fy = 0x10 then .StartOfTag
  else if fy = 0x11 then .StartOfAttributes
  else if fy = 0x18 then .StartOfData
  else if fy = 0x19 then .EndOfData
  else .Unknown

/-- The Operation struct: operating kind, optional system operation code, and
the list of raw fyve values read. -/
structure Operation where
  kind : OperatingCode
  code : Option OperationCode
  value : List Nat
  deriving DecidableEq, Repr

/-- The while loop of Operation::from for character chains: as long as the
fyve just read equals 0b11111, read another 5 bits (as u8) and append it.
There is no bound on the number of continuation reads in the source. -/
def fyveChain (d : BitDecoder) (value : List Nat) (next : Nat) : Except Error (List Nat × BitDecoder) :=
  if next = 0x1f then
    match h : d.read_data 5 with
    | .error e => .error e
    | .ok (v, d2) => fyveChain d2 (value ++ [v % 2 ^ 8]) (v % 2 ^ 8)
  else
    .ok (value, d)
termination_by d.frame.length - d.position
decreasing_by
  simp only [BitDecoder.read_data] at h
  split at h
  · exact absurd h (by simp)
  · simp only [Except.ok.injEq, Prod.mk.injEq] at h
    obtain ⟨-, h2⟩ := h
    rename_i hle
    rw [← h2]
    simp only [BitDecoder.readLoop]
    omega

/-- Fuel-indexed evaluator for the continuation loop, used to compute
fyveChain inside kernel reductions; fyveChainAux_eq below shows it agrees
with fyveChain whenever the fuel dominates the number of possible reads. -/
def fyveChainAux : Nat → BitDecoder → List Nat → Nat → Except Error (List Nat × BitDecoder)
  | gas, d, value, next =>
    if next = 0x1f then
      match d.read_data 5 with
      | .error e => .error e
      | .ok (v, d2) =>
        match gas with
        | 0 => .ok (value ++ [v % 2 ^ 8], d2)
        | gas + 1 => fyveChainAux gas d2 (value ++ [v % 2 ^ 8]) (v % 2 ^ 8)
    else
      .ok (value, d)

/-- Operation::from: a 0b00000 fyve reads one more fyve as a system
operation code; a 0b11111 fyve starts a character chain; any other fyve is
a single-fyve character. -/
def Operation.fromFyve (fy : Nat) (d : BitDecoder) : Except Error (Operation × BitDecoder) :=
  match OperatingCode.fromFyve fy with
  | .System =>
    match d.read_data 5 with
    | .error e => .error e
    | .ok (oper, d2) =>
        .ok (⟨.System, some (OperationCode.fromFyve (oper % 2 ^ 8)), [fy, oper % 2 ^ 8]⟩, d2)
  | .Character =>
    if fy = 0x1f then
      match d.read_data 5 with
      | .error e => .error e
      | .ok (v, d2) =>
        match fyveChain d2 [fy, v % 2 ^ 8] (v % 2 ^ 8) with
        | .error e => .error e
        | .ok (value, d3) => .ok (⟨.Character, none, value⟩, d3)
    else
      .ok (⟨.Character, none, [fy]⟩, d)

/-- FyveImpl::read_fyve: read 5 bits as a u8. -/
def FyveImpl.read_fyve (d : BitDecoder) : Except Error (Nat × BitDecoder) :=
  match d.read_data 5 with
  | .error e => .error e
  | .ok (v, d2) => .ok (v % 2 ^ 8, d2)

/-- FyveImpl::get_op: read one fyve, then parse the operation it starts. -/
def FyveImpl.get_op (d : BitDecoder) : Except Error (Operation × BitDecoder) :=
  match FyveImpl.read_fyve d with
  | .error e => .error e
  | .ok (fy, d2) => Operation.fromFyve fy d2

/-- Computable variant of Operation.fromFyve (fyveChainAux with fuel). -/
def Operation.fromFyveC (fy : Nat) (d : BitDecoder) : Except Error (Operation × BitDecoder) :=
  match OperatingCode.fromFyve fy with
  | .System =>
    match d.read_data 5 with
    | .error e => .error e
    | .ok (oper, d2) =>
        .ok (⟨.System, some (OperationCode.fromFyve (oper % 2 ^ 8)), [fy, oper % 2 ^ 8]⟩, d2)
  | .Character =>
    if fy = 0x1f then
      match d.read_data 5 with
      | .error e => .error e
      | .ok (v, d2) =>
        match fyveChainAux d.frame.length d2 [fy, v % 2 ^ 8] (v % 2 ^ 8) with
        | .error e => .error e
        | .ok (value, d3) => .ok (⟨.Character, none, value⟩, d3)
    else
      .ok (⟨.Character, none, [fy]⟩, d)

/-- Computable variant of FyveImpl.get_op. -/
def FyveImpl.get_opC (d : BitDecoder) : Except Error (Operation × BitDecoder) :=
  match FyveImpl.read_fyve d with
  | .error e => .error e
  | .ok (fy, d2) => Operation.fromFyveC fy d2

/-- The server CHARS table of src/protocol/server/bits/utils.rs: Unicode code
point of each character, paired with its fyve bit pattern (the logical bit
sequence of the bitvec literal). -/
def CHARS_server : List (Nat × List Bool) := [
(32, [false, false, false, false, true]),
  (116, [false, false, false, true, false]),
  (97, [false, false, false, true, true]),
  (101, [false, false, true, false, false]),
  (105, [false, false, true, false, true]),
  (110, [false, false, true, true, false]),
  (111, [false, false, true, true, true]),
  (114, [false, true, false, false, false]),
  (115, [false, true, false, false, true]),
  (100, [false, true, false, true, false]),
  (108, [false, true, false, true, true]),
  (45, [false, true, true, false, false]),
  (34, [false, true, true, false, true]),
  (99, [false, true, true, true, false]),
  (112, [false, true, true, true, true]),
  (102, [true, false, false, false, false]),
  (62, [true, false, false, false, true]),
  (61, [true, false, false, true, false]),
  (46, [true, false, false, true, true]),
  (118, [true, false, true, false, false]),
  (60, [true, false, true, false, true]),
  (117, [true, false, true, true, false]),
  (109, [true, false, true, true, true]),
  (59, [true, true, false, false, false]),
  (103, [true, true, false, false, true]),
  (58, [true, true, false, true, false]),
  (47, [true, true, false, true, true]),
  (104, [true, true, true, false, false]),
  (121, [true, true, true, false, true]),
  (120, [true, true, true, true, false]),
  (98, [true, true, true, true, true, false, false, false, false, true]),
  (107, [true, true, true, true, true, false, false, false, true, false]),
  (41, [true, true, true, true, true, false, false, false, true, true]),
  (40, [true, true, true, true, true, false, false, true, false, false]),
  (119, [true, true, true, true, true, false, false, true, false, true]),
  (69, [true, true, true, true, true, false, false, true, true, false]),
  (35, [true, true, true, true, true, false, false, true, true, true]),
  (125, [true, true, true, true, true, false, true, false, false, false]),
  (123, [true, true, true, true, true, false, true, false, false, true]),
  (48, [true, true, true, true, true, false, true, false, true, false]),
  (78, [true, true, true, true, true, false, true, false, true, true]),
  (65, [true, true, true, true, true, false, true, true, false, false]),
  (50, [true, true, true, true, true, false, true, true, false, true]),
  (82, [true, true, true, true, true, false, true, true, true, false]),
  (49, [true, true, true, true, true, false, true, true, true, true]),
  (84, [true, true, true, true, true, true, false, false, false, false]),
  (68, [true, true, true, true, true, true, false, false, false, true]),
  (79, [true, true, true, true, true, true, false, false, true, false]),
  (73, [true, true, true, true, true, true, false, false, true, true]),
  (83, [true, true, true, true, true, true, false, true, false, false]),
  (95, [true, true, true, true, true, true, false, true, false, true]),
  (80, [true, true, true, true, true, true, false, true, true, false]),
  (76, [true, true, true, true, true, true, false, true, true, true]),
  (54, [true, true, true, true, true, true, true, false, false, false]),
  (52, [true, true, true, true, true, true, true, false, false, true]),
  (44, [true, true, true, true, true, true, true, false, true, false]),
  (122, [true, true, true, true, true, true, true, false, true, true]),
  (77, [true, true, true, true, true, true, true, true, false, false]),
  (67, [true, true, true, true, true, true, true, true, false, true]),
  (66, [true, true, true, true, true, true, true, true, true, false]),
  (71, [true, true, true, true, true, true, true, true, true, true, false, false, false, false, true]),
  (37, [true, true, true, true, true, true, true, true, true, true, false, false, false, true, false]),
  (106, [true, true, true, true, true, true, true, true, true, true, false, false, false, true, true]),
  (51, [true, true, true, true, true, true, true, true, true, true, false, false, true, false, false]),
  (85, [true, true, true, true, true, true, true, true, true, true, false, false, true, false, true]),
  (56, [true, true, true, true, true, true, true, true, true, true, false, false, true, true, false]),
  (42, [true, true, true, true, true, true, true, true, true, true, false, false, true, true, true]),
  (53, [true, true, true, true, true, true, true, true, true, true, false, true, false, false, false]),
  (57, [true, true, true, true, true, true, true, true, true, true, false, true, false, false, true]),
  (43, [true, true, true, true, true, true, true, true, true, true, false, true, false, true, false]),
  (70, [true, true, true, true, true, true, true, true, true, true, false, true, false, true, true]),
  (124, [true, true, true, true, true, true, true, true, true, true, false, true, true, false, false]),
  (87, [true, true, true, true, true, true, true, true, true, true, false, true, true, false, true]),
  (86, [true, true, true, true, true, true, true, true, true, true, false, true, true, true, false]),
  (64, [true, true, true, true, true, true, true, true, true, true, false, true, true, true, true]),
  (113, [true, true, true, true, true, true, true, true, true, true, true, false, false, false, false]),
  (39, [true, true, true, true, true, true, true, true, true, true, true, false, false, false, true]),
  (81, [true, true, true, true, true, true, true, true, true, true, true, false, false, true, false]),
  (72, [true, true, true, true, true, true, true, true, true, true, true, false, false, true, true]),
  (33, [true, true, true, true, true, true, true, true, true, true, true, false, true, false, false]),
  (93, [true, true, true, true, true, true, true, true, true, true, true, false, true, false, true]),
  (91, [true, true, true, true, true, true, true, true, true, true, true, false, true, true, false]),
  (55, [true, true, true, true, true, true, true, true, true, true, true, false, true, true, true]),
  (90, [true, true, true, true, true, true, true, true, true, true, true, true, false, false, false]),
  (89, [true, true, true, true, true, true, true, true, true, true, true, true, false, false, true]),
  (88, [true, true, true, true, true, true, true, true, true, true, true, true, false, true, false]),
  (74, [true, true, true, true, true, true, true, true, true, true, true, true, false, true, true]),
  (94, [true, true, true, true, true, true, true, true, true, true, true, true, true, false, false]),
  (75, [true, true, true, true, true, true, true, true, true, true, true, true, true, false, true]),
  (63, [true, true, true, true, true, true, true, true, true, true, true, true, true, true, false]),
  (36, [true, true, true, true, true, true, true, true, true, true, true, true, true, true, true, false, false, false, false, true]),
  (92, [true, true, true, true, true, true, true, true, true, true, true, true, true, true, true, false, false, false, true, false]),
  (126, [true, true, true, true, true, true, true, true, true, true, true, true, true, true, true, false, false, false, true, true]),
  (96, [true, true, true, true, true, true, true, true, true, true, true, true, true, true, true, false, false, true, false, false]),
  (38, [true, true, true, true, true, true, true, true, true, true, true, true, true, true, true, false, false, true, false, true])
]

/-- The client CHARS table of src/protocol/client/bits/utils.rs: fyve code
paired with the Unicode code point of the decoded character. -/
def CHARS_client : List (Nat × Nat) := [
(1, 32),
  (2, 116),
  (3, 97),
  (4, 101),
  (5, 105),
  (6, 110),
  (7, 111),
  (8, 114),
  (9, 115),
  (10, 100),
  (11, 108),
  (12, 45),
  (13, 34),
  (14, 99),
  (15, 112),
  (16, 102),
  (17, 62),
  (18, 61),
  (19, 46),
  (20, 118),
  (21, 60),
  (22, 117),
  (23, 109),
  (24, 59),
  (25, 103),
  (26, 58),
  (27, 47),
  (28, 104),
  (29, 121),
  (30, 120),
  (993, 98),
  (994, 107),
  (995, 41),
  (996, 40),
  (997, 119),
  (998, 69),
  (999, 35),
  (1000, 125),
  (1001, 123),
  (1002, 48),
  (1003, 78),
  (1004, 65),
  (1005, 50),
  (1006, 82),
  (1007, 49),
  (1008, 84),
  (1009, 68),
  (1010, 79),
  (1011, 73),
  (1012, 83),
  (1013, 95),
  (1014, 80),
  (1015, 76),
  (1016, 54),
  (1017, 52),
  (1018, 44),
  (1019, 122),
  (1020, 77),
  (1021, 67),
  (1022, 66),
  (32737, 71),
  (32738, 37),
  (32739, 106),
  (32740, 51),
  (32741, 85),
  (32742, 56),
  (32743, 42),
  (32744, 53),
  (32745, 57),
  (32746, 43),
  (32747, 70),
  (32748, 124),
  (32749, 87),
  (32750, 86),
  (32751, 64),
  (32752, 113),
  (32753, 39),
  (32754, 81),
  (32755, 72),
  (32756, 33),
  (32757, 93),
  (32758, 91),
  (32759, 55),
  (32760, 90),
  (32761, 89),
  (32762, 88),
  (32763, 74),
  (32764, 94),
  (32765, 75),
  (32766, 63),
  (1048545, 36),
  (1048546, 92),
  (1048547, 126),
  (1048548, 96),
  (1048549, 38)
]

/-- Operation::get_char: reverse the collected fyve values, fold them into
a single code (value i shifted left by 5 * i and or-ed in; exact for chains
of at most six fyves, where the u32 shift cannot overflow -- the longest
chain any table entry produces is four), and look the code up in the client
CHARS table; unknown codes give a BadRequest error with code 400. -/
def Operation.get_char (op : Operation) : Except Error Nat :=
  let value := (op.value.reverse.enum.foldl (fun acc p => acc ||| (p.2 <<< (p.1 * 5))) 0)
  match CHARS_client.lookup value with
  | some c => .ok c
  | none => .error ⟨400, "Invalid character", .BadRequest⟩

/-! ## UTF-8 and JSON models for the v1 codecs

The event codecs call into the Rust standard library (String::from_utf8)
and the serde_json crate.  These external functions are modelled here:
utf8Decode follows the UTF-8 validation of RFC 3629 exactly (which is what
String::from_utf8 implements); the JSON serializer and parser model
serde_json on the flat fragment the claims exercise. -/

/-- Is a UTF-8 continuation byte (0x80..0xBF). -/
def isCont (b : Nat) : Bool := 0x80 ≤ b && b ≤ 0xBF

/-- Models String::from_utf8: decode a byte list as UTF-8 code points,
returning none exactly when the bytes are not valid UTF-8 (RFC 3629:
overlong encodings, surrogates and code points above U+10FFFF rejected). -/
def utf8Decode : List Nat → Option (List Nat)
  | [] => some []
  | b1 :: rest =>
    if b1 ≤ 0x7F then
      (utf8Decode rest).map (fun s => b1 :: s)
    else if 0xC2 ≤ b1 && b1 ≤ 0xDF then
      match rest with
      | b2 :: rest2 =>
        if isCont b2 then
          (utf8Decode rest2).map (fun s => ((b1 - 0xC0) * 64 + (b2 - 0x80)) :: s)
        else none
      | _ => none
    else if 0xE0 ≤ b1 && b1 ≤ 0xEF then
      match rest with
      | b2 :: b3 :: rest2 =>
        let lo2 : Nat := if b1 = 0xE0 then 0xA0 else 0x80
        let hi2 : Nat := if b1 = 0xED then 0x9F else 0xBF
        if lo2 ≤ b2 && b2 ≤ hi2 && isCont b3 then
          (utf8Decode rest2).map
            (fun s => ((b1 - 0xE0) * 4096 + (b2 - 0x80) * 64 + (b3 - 0x80)) :: s)
        else none
      | _ => none
    else if 0xF0 ≤ b1 && b1 ≤ 0xF4 then
      match rest with
      | b2 :: b3 :: b4 :: rest2 =>
        let lo2 : Nat := if b1 = 0xF0 then 0x90 else 0x80
        let hi2 : Nat := if b1 = 0xF4 then 0x8F else 0xBF
        if lo2 ≤ b2 && b2 ≤ hi2 && isCont b3 && isCont b4 then
          (utf8Decode rest2).map
            (fun s => ((b1 - 0xF0) * 262144 + (b2 - 0x80) * 4096 +
                       (b3 - 0x80) * 64 + (b4 - 0x80)) :: s)
        else none
      | _ => none
    else none

/-- A JSON value, modelling serde_json::Value.  Strings are lists of
Unicode code points; numbers are restricted to integers, the only numbers
the claims exercise. -/
inductive Json where
  | null
  | bool (b : Bool)
  | num (n : Int)
  | str (s : List Nat)
  | arr (xs : List Json)
  | obj (fields : List (List Nat × Json))

/-- Decimal digits of a natural number, as ASCII bytes. -/
def natDecimal (n : Nat) : List Nat :=
  (Nat.toDigits 10 n).map Char.toNat

/-- Decimal rendering of an integer, as ASCII bytes (45 is the minus sign). -/
def intDecimal (i : Int) : List Nat :=
  if i < 0 then 45 :: natDecimal i.natAbs else natDecimal i.toNat

/-- Interleave a separator byte between rendered elements. -/
def joinBytes (sep : Nat) : List (List Nat) → List Nat
  | [] => []
  | [x] => x
  | x :: y :: rest => x ++ sep :: joinBytes sep (y :: rest)

mutual

/-- Models serde_json::Value::to_string (compact form, no whitespace), as
bytes.  String contents are emitted verbatim between quotes; this is exact
for strings without characters that serde_json escapes, which covers every
string the claims serialize. -/
def Json.toBytes : Json → List Nat
  | .null => [110, 117, 108, 108]
  | .bool true => [116, 114, 117, 101]
  | .bool false => [102, 97, 108, 115, 101]
  | .num i => intDecimal i
  | .str s => 34 :: s ++ [34]
  | .arr xs => 91 :: joinBytes 44 (Json.listBytes xs) ++ [93]
  | .obj fs => 123 :: joinBytes 44 (Json.fieldsBytes fs) ++ [125]

/-- Rendered elements of a JSON array. -/
def Json.listBytes : List Json → List (List Nat)
  | [] => []
  | x :: xs => Json.toBytes x :: Json.listBytes xs

/-- Rendered key-value pairs of a JSON object. -/
def Json.fieldsBytes : List (List Nat × Json) → List (List Nat)
  | [] => []
  | (k, v) :: fs => (34 :: k ++ [34, 58] ++ Json.toBytes v) :: Json.fieldsBytes fs

end

/-- Is an ASCII decimal digit. -/
def isDigit (c : Nat) : Bool := 48 ≤ c && c ≤ 57

/-- Parse a JSON natural number literal: non-empty digits, no leading zero
(except the single digit 0). -/
def parseNat? (s : List Nat) : Option Nat :=
  if s = [] || !(s.all isDigit) then none
  else if 1 < s.length && s.headD 0 = 48 then none
  else some (s.foldl (fun a c => 10 * a + (c - 48)) 0)

/-- Parse a JSON integer literal (optional minus sign). -/
def parseInt? (s : List Nat) : Option Int :=
  match s with
  | 45 :: rest => (parseNat? rest).map (fun n => -(n : Int))
  | _ => (parseNat? s).map (fun n => (n : Int))

/-- Parse a JSON scalar: null, true, false, or an integer literal. -/
def parseScalar (s : List Nat) : Option Json :=
  if s = [110, 117, 108, 108] then some .null
  else if s = [116, 114, 117, 101] then some (.bool true)
  else if s = [102, 97, 108, 115, 101] then some (.bool false)
  else (parseInt? s).map Json.num

/-- Parse one object member of the form a quote, key bytes, quote, colon,
scalar value. -/
def parseMember (s : List Nat) : Option (List Nat × Json) :=
  match s with
  | 34 :: rest =>
    match rest.splitOn 34 with
    | [key, after] =>
      match after with
      | 58 :: v => (parseScalar v).map (fun j => (key, j))
      | _ => none
    | _ => none
  | _ => none

/-- Collect parsed object members. -/
def parseMembers (parts : List (List Nat)) : Option (List (List Nat × Json)) :=
  match parts with
  | [] => some []
  | p :: rest =>
    match parseMember p, parseMembers rest with
    | some m, some ms => some (m :: ms)
    | _, _ => none

/-- Models serde_json::from_str on the flat fragment the codecs exercise:
scalars (null, booleans, integers), strings without escapes or embedded
quotes, and one-level objects whose values are scalars or such strings and
whose member bytes contain no comma inside strings.  Inputs outside this
fragment (in particular every malformed input the claims feed in, which
serde_json also rejects) parse to none. -/
def jsonParse (s : List Nat) : Option Json :=
  match s with
  | 123 :: rest =>
    match rest.reverse with
    | 125 :: midrev =>
      let mid := midrev.reverse
      if mid = [] then some (.obj [])
      else (parseMembers (mid.splitOn 44)).map Json.obj
    | _ => none
  | 34 :: rest =>
    match rest.reverse with
    | 34 :: midrev => if (midrev.reverse).contains 34 then none else some (.str midrev.reverse)
    | _ => none
  | _ => parseScalar s

/-! ## The version-1 event codecs the claims exercise -/

/-- A byte-reading loop shared by several decoders: k times read_data(8)
and collect the bytes (as u8 values); any failed read aborts with its
error, as the question-mark operator does in the Rust loops. -/
def readBytes (d : BitDecoder) (k : Nat) : Except Error (List Nat × BitDecoder) :=
  match k with
  | 0 => .ok ([], d)
  | k + 1 =>
    match d.read_data 8 with
    | .error e => .error e
    | .ok (b, d2) =>
      match readBytes d2 k with
      | .error e => .error e
      | .ok (bs, d3) => .ok (b % 2 ^ 8 :: bs, d3)

/-- InteractionResponse::encode of src/protocol/server/versions/v1/c0x0006.rs:
32 bits of the upper request id, 32 bits of the lower request id, then the
serde_json rendering of the response value when present. -/
def c0x0006_encode (request_id : Nat) (response : Option Json) : Except Error BitEncoder :=
  let upper := (request_id / 2 ^ 32) % 2 ^ 32
  let lower := request_id % 2 ^ 32
  match BitEncoder.new.add_data upper 32 with
  | .error err => .error err
  | .ok e =>
  match e.add_data lower 32 with
  | .error err => .error err
  | .ok e =>
  match response with
  | some r => e.add_bytes r.toBytes
  | none => .ok e

/-- InteractionResponse::decode of src/protocol/client/versions/v1/r0x0006.rs:
read two 32-bit halves of the request id, then loop frame.len() / 8 times
reading one byte each (note: the total bit length of the decoder frame, not
the number of remaining bytes), then String::from_utf8(bytes).unwrap()
(crash on invalid UTF-8) and serde_json parsing with parse failures mapped
to Value::Null. -/
def r0x0006_decode (d : BitDecoder) : PResult (Nat × Option Json) :=
  match d.read_data 32 with
  | .error e => .err e
  | .ok (upper, d) =>
  match d.read_data 32 with
  | .error e => .err e
  | .ok (lower, d) =>
  let request_id := upper * 2 ^ 32 + lower
  match readBytes d (d.frame.length / 8) with
  | .error e => .err e
  | .ok (bytes, _) =>
    match utf8Decode bytes with
    | none => .crash
    | some s => .ok (request_id, some ((jsonParse s).getD .null))

/-- ComponentNeedsRequest::decode of src/protocol/server/versions/v1/r0x0000.rs:
read data_size / 8 bytes, then String::from_utf8(bytes).unwrap(): invalid
UTF-8 panics (crash). data_size is the u16 field of the decoded Frame. -/
def r0x0000_decode (d : BitDecoder) (data_size : Nat) : PResult (List Nat × BitDecoder) :=
  match readBytes d (data_size / 8) with
  | .error e => .err e
  | .ok (bytes, d2) =>
    match utf8Decode bytes with
    | none => .crash
    | some s => .ok (s, d2)

/-- HtmlFileResponse::read_utf8_chain of
src/protocol/client/versions/v1/r0x0001.rs: read length bytes, then map a
String::from_utf8 failure to an Error of kind BadRequest with code 401. -/
def read_utf8_chain (d : BitDecoder) (length : Nat) : Except Error (List Nat × BitDecoder) :=
  match readBytes d length with
  | .error e => .error e
  | .ok (bytes, d2) =>
    match utf8Decode bytes with
    | none => .error ⟨401, "Invalid UTF-8", .BadRequest⟩
    | some s => .ok (s, d2)

/-- Models str::parse::<i32>: optional sign, one or more digits (leading
zeros allowed), value within the i32 range. -/
def parseI32 (s : List Nat) : Option Int :=
  let core := fun (digits : List Nat) (sign : Int) =>
    if digits = [] || !(digits.all isDigit) then none
    else
      let n : Nat := digits.foldl (fun a c => 10 * a + (c - 48)) 0
      let v : Int := sign * (n : Int)
      if -(2 ^ 31) ≤ v && v ≤ 2 ^ 31 - 1 then some v else none
  match s with
  | 45 :: rest => core rest (-1)
  | 43 :: rest => core rest 1
  | _ => core s 1

/-- The decoded InteractionRequest fields. -/
structure InteractionReq where
  request_id : Nat
  function_name : List Nat
  parent_name : List Nat
  object_id : Option Int
  params : Option Json
  token : Option (List Nat)

/-- InteractionRequest::decode of src/protocol/server/versions/v1/r0x0005.rs:
read the 64-bit id, then (frame.len() - 64) / 8 bytes, view them as chars
(b as char, the identity on code points below 256), split on the 0x00
separator, and extract the five fields.  parts[1] through parts[4] are
indexed directly (crash when absent); a non-empty object id is
parse::<i32>().unwrap() (crash on failure) and non-empty params are
serde_json::from_str(..).unwrap() (crash on failure). -/
def r0x0005_decode (d : BitDecoder) : PResult InteractionReq :=
  match d.read_data 32 with
  | .error e => .err e
  | .ok (upper, d) =>
  match d.read_data 32 with
  | .error e => .err e
  | .ok (lower, d) =>
  let request_id := upper * 2 ^ 32 + lower
  let byte_length := (d.frame.length - 64) / 8
  match readBytes d byte_length with
  | .error e => .err e
  | .ok (data, _) =>
  let parts := data.splitOn 0
  let function_name := parts.getD 0 []
  match parts.get? 1 with
  | none => .crash
  | some parent_name =>
  if function_name = [] then
    .err ⟨400, "Function name is empty", .BadRequest⟩
  else if parent_name = [] then
    .err ⟨400, "Table name is empty", .BadRequest⟩
  else
  match parts.get? 2 with
  | none => .crash
  | some p2 =>
  let token := if p2 = [] then none else some p2
  match parts.get? 3 with
  | none => .crash
  | some p3 =>
  match (if p3 = [] then some none else (parseI32 p3).map some) with
  | none => .crash
  | some object_id =>
  match parts.get? 4 with
  | none => .crash
  | some p4 =>
  match (if p4 = [] then some none else (jsonParse p4).map some) with
  | none => .crash
  | some params =>
    .ok ⟨request_id, function_name, parent_name, object_id, params, token⟩

/-! ## Claim-support definitions -/

/-- Whole frame round-trip: encode a payload with FrameEncoder (Lsb0, the
emission order of the spec) and decode the wire bytes with FrameDecoder
over a fresh Msb0 BitDecoder, keeping only the decoded Frame. -/
def frameRoundtrip (ev : Nat) (payload : List Bool) : PResult Frame :=
  match FrameEncoder.encode .lsb0 .V1 ev payload with
  | .error e => .err e
  | .ok bytes =>
    match FrameDecoder.decode (BitDecoder.new bytes) with
    | .err e => .err e
    | .crash => .crash
    | .ok (frame, _) => .ok frame

/-- One encoder call for the bit-order duality claim. -/
inductive EncCall where
  | data (d n : Nat)
  | bytes (bs : List Nat)

/-- Replay a sequence of add_data / add_bytes calls on a fresh encoder.
The pushed logical bit sequence is order-independent (bitvec push appends
the same logical bit under either order); only encode differs. -/
def runCalls : List EncCall → BitEncoder → Except Error BitEncoder
  | [], e => .ok e
  | .data v n :: rest, e =>
    match e.add_data v n with
    | .error err => .error err
    | .ok e2 => runCalls rest e2
  | .bytes bs :: rest, e =>
    match e.add_bytes bs with
    | .error err => .error err
    | .ok e2 => runCalls rest e2

/-- One alphabet entry round-trip: read the bit pattern with the fyve
reader, require that it consumes the whole pattern, then look the decoded
operation up with Operation::get_char and compare with the entry character. -/
def charRT (p : Nat × List Bool) : Bool :=
  match FyveImpl.get_op ⟨p.2, 0⟩ with
  | .ok (op, d2) =>
    (match op.get_char with
     | .ok c => c == p.1
     | .error _ => false) && (d2.position == p.2.length)
  | .error _ => false

/-- charRT computed through the fuel-indexed chain evaluator. -/
def charRTC (p : Nat × List Bool) : Bool :=
  match FyveImpl.get_opC ⟨p.2, 0⟩ with
  | .ok (op, d2) =>
    (match op.get_char with
     | .ok c => c == p.1
     | .error _ => false) && (d2.position == p.2.length)
  | .error _ => false

/-- The S5 response value, serde_json::json of a test field holding 5. -/
def s5Response : Json := .obj [([116, 101, 115, 116], .num 5)]

/-- The S5 full track: server-side 0x0006 encode, frame encode, frame
decode, then the client 0x0006 decode on the decoder handed over by the
frame decoder (position 56, as in tests/t0x0006_event_decoding_full_track.rs). -/
def s5Track : PResult (Nat × Option Json) :=
  match c0x0006_encode 0 (some s5Response) with
  | .error e => .err e
  | .ok payloadEnc =>
    match FrameEncoder.encode .lsb0 .V1 0x0006 payloadEnc.frame with
    | .error e => .err e
    | .ok bytes =>
      match FrameDecoder.decode (BitDecoder.new bytes) with
      | .err e => .err e
      | .crash => .crash
      | .ok (_, d) => r0x0006_decode d

/-- The logical bit sequence FrameEncoder.encode assembles for a valid
payload: version 1, event, 32-bit size, payload, zero padding to a byte
boundary. -/
def wireBits (ev : Nat) (payload : List Bool) : List Bool :=
  toBits 8 1 ++ (toBits 16 ev ++ (toBits 32 payload.length ++
    (payload ++ List.replicate ((8 - payload.length % 8) % 8) false)))

/-- Full server-side track for a 0x0000 frame whose one-byte payload is
0xFF (not valid UTF-8): frame encode, frame decode, then
ComponentNeedsRequest::decode on the handed-over decoder with the decoded
data_size. -/
def c8Track : PResult (List Nat × BitDecoder) :=
  match FrameEncoder.encode .lsb0 .V1 0 (toBits 8 255) with
  | .error e => .err e
  | .ok bytes =>
    match FrameDecoder.decode (BitDecoder.new bytes) with
    | .err e => .err e
    | .crash => .crash
    | .ok (fr, d) => r0x0000_decode d fr.data_size

/-! ## Lemmas: bit values, read primitives -/

theorem beVal_foldl (l : List Bool) (a : Nat) :
    l.foldl (fun x b => 2 * x + (cond b 1 0)) a = a * 2 ^ l.length + beVal l := by
  induction l generalizing a with
  | nil => simp [beVal]
  | cons b t ih =>
      simp only [List.foldl_cons, List.length_cons, beVal]
      rw [ih, ih (2 * 0 + cond b 1 0)]
      ring

theorem beVal_cons (b : Bool) (l : List Bool) :
    beVal (b :: l) = (cond b 1 0) * 2 ^ l.length + beVal l := by
  have := beVal_foldl l (2 * 0 + cond b 1 0)
  simpa [beVal] using this

theorem beVal_append (l1 l2 : List Bool) :
    beVal (l1 ++ l2) = beVal l1 * 2 ^ l2.length + beVal l2 := by
  simp only [beVal, List.foldl_append]
  exact beVal_foldl l2 _

theorem beVal_lt (l : List Bool) : beVal l < 2 ^ l.length := by
  induction l with
  | nil => simp [beVal]
  | cons b t ih =>
      rw [beVal_cons]
      simp only [List.length_cons, pow_succ]
      cases b <;> (simp only [cond_true, cond_false]; omega)


theorem toBits_length (n v : Nat) : (toBits n v).length = n := by
  simp [toBits]

theorem toBits_succ (n v : Nat) : toBits (n + 1) v = Nat.testBit v n :: toBits n v := by
  simp [toBits, List.range_succ]

theorem beVal_toBits (n v : Nat) : beVal (toBits n v) = v % 2 ^ n := by
  induction n with
  | zero => simp [toBits, beVal, Nat.mod_one]
  | succ n ih =>
      rw [toBits_succ, beVal_cons, toBits_length, ih, pow_succ, Nat.mod_mul,
        Nat.testBit_to_div_mod]
      rcases Nat.mod_two_eq_zero_or_one (v / 2 ^ n) with h | h
      · simp [h]
      · simp [h]
        omega

theorem toBits_mod (n v : Nat) : toBits n (v % 2 ^ n) = toBits n v := by
  simp only [toBits]
  apply List.map_congr_left
  intro i hi
  have : i < n := by simpa using hi
  simp [Nat.testBit_mod_two_pow, this]

theorem readLoop_spec (n : Nat) (frame : List Bool) (pos data : Nat)
    (hd : data < 2 ^ 32) (hlen : pos + n ≤ frame.length) :
    BitDecoder.readLoop n frame pos data
      = ((data * 2 ^ n + beVal ((frame.drop pos).take n)) % 2 ^ 32, pos + n) := by
  induction n generalizing pos data with
  | zero =>
      simp only [BitDecoder.readLoop, pow_zero, mul_one, List.take_zero]
      rw [show beVal [] = 0 from rfl, Nat.add_zero, Nat.mod_eq_of_lt hd, Nat.add_zero]
  | succ n ih =>
      rw [BitDecoder.readLoop]
      have hpos : pos < frame.length := by omega
      have hx : (2 * data) % 2 ^ 32 % 2 = 0 := by
        rw [Nat.mod_mod_of_dvd _ (by norm_num : (2 : Nat) ∣ 2 ^ 32)]
        simp [Nat.mul_mod_right]
      have hlt : (2 * data) % 2 ^ 32 < 2 ^ 32 := Nat.mod_lt _ (by norm_num)
      have hd2 : (2 * data) % 2 ^ 32 + (cond (frame.getD pos false) 1 0) < 2 ^ 32 := by
        have h232 : (2 : Nat) ^ 32 % 2 = 0 := by norm_num
        cases frame.getD pos false <;> simp <;> omega
      rw [ih _ _ hd2 (by omega)]
      have hslice : (frame.drop pos).take (n + 1)
          = frame.getD pos false :: ((frame.drop (pos + 1)).take n) := by
        rw [List.getD_eq_getElem frame false hpos, List.drop_eq_getElem_cons hpos,
          List.take_succ_cons]
      have hlen2 : ((frame.drop (pos + 1)).take n).length = n := by
        simp only [List.length_take, List.length_drop]
        omega
      rw [hslice, beVal_cons, hlen2]
      refine Prod.ext ?_ (by omega)
      show _ % 2 ^ 32 = _ % 2 ^ 32
      have hmod : ((2 * data) % 2 ^ 32 + (cond (frame.getD pos false) 1 0)) * 2 ^ n
            + beVal ((frame.drop (pos + 1)).take n)
          ≡ (2 * data + (cond (frame.getD pos false) 1 0)) * 2 ^ n
            + beVal ((frame.drop (pos + 1)).take n) [MOD 2 ^ 32] :=
        Nat.ModEq.add_right _ (Nat.ModEq.mul_right _ (Nat.ModEq.add_right _ (Nat.mod_modEq _ _)))
      rw [hmod]
      congr 1
      ring

theorem read_data_ok (d : BitDecoder) (n : Nat) (h : d.position + n ≤ d.frame.length) :
    d.read_data n
      = .ok ((beVal ((d.frame.drop d.position).take n)) % 2 ^ 32, ⟨d.frame, d.position + n⟩) := by
  have hn : ¬ (d.position + n > d.frame.length) := by omega
  simp only [BitDecoder.read_data]
  rw [if_neg hn, readLoop_spec n d.frame d.position 0 (by norm_num) h]
  simp

theorem read_data_err (d : BitDecoder) (n : Nat) (h : d.frame.length < d.position + n) :
    d.read_data n = .error ⟨0b1000, "Out of bound", .SizeConstraintViolation⟩ := by
  have hn : d.position + n > d.frame.length := by omega
  simp only [BitDecoder.read_data]
  rw [if_pos hn]

theorem read_data_exact (A B C : List Bool) (n : Nat) (hB : B.length = n) (h32 : n ≤ 32) :
    BitDecoder.read_data ⟨A ++ (B ++ C), A.length⟩ n
      = .ok (beVal B, ⟨A ++ (B ++ C), A.length + n⟩) := by
  have hlen : A.length + n ≤ (A ++ (B ++ C)).length := by
    simp [← hB]
  rw [read_data_ok ⟨A ++ (B ++ C), A.length⟩ n hlen]
  have hdrop : (A ++ (B ++ C)).drop A.length = B ++ C := List.drop_left A (B ++ C)
  have htake : (B ++ C).take n = B := by
    rw [← hB]
    exact List.take_left B C
  have hval : beVal B < 2 ^ 32 :=
    lt_of_lt_of_le (beVal_lt B) (Nat.pow_le_pow_right (by norm_num) (hB ▸ h32))
  simp only [hdrop, htake, Nat.mod_eq_of_lt hval]

theorem read_field (A C : List Bool) (n v : Nat) (h32 : n ≤ 32) :
    BitDecoder.read_data ⟨A ++ (toBits n v ++ C), A.length⟩ n
      = .ok (v % 2 ^ n, ⟨A ++ (toBits n v ++ C), A.length + n⟩) := by
  rw [read_data_exact A (toBits n v) C n (toBits_length n v) h32, beVal_toBits]

theorem byteBits_eq_toBits (b : Nat) :
    (List.range 8).map (fun j => Nat.testBit b (7 - j)) = toBits 8 b := by
  simp only [toBits]
  apply List.ext_getElem (by simp)
  intro i h1 h2
  simp only [List.getElem_map, List.getElem_reverse, List.getElem_range,
    List.length_range]

theorem fromSliceMsb0_cons (b : Nat) (bs : List Nat) :
    fromSliceMsb0 (b :: bs) = toBits 8 b ++ fromSliceMsb0 bs := by
  simp [fromSliceMsb0, byteBits_eq_toBits]

theorem read_vec_ok (d : BitDecoder) (f t : Nat) (h1 : f < d.frame.length)
    (h2 : f ≤ t) (h3 : t ≤ d.frame.length) :
    d.read_vec f t = .ok ((d.frame.drop f).take (t - f)) := by
  simp only [BitDecoder.read_vec]
  rw [if_neg (by omega), if_pos ⟨h2, h3⟩]

theorem chunks8_cons8 (a b c d e f g h : Bool) (rest : List Bool) :
    chunks8 (a :: b :: c :: d :: e :: f :: g :: h :: rest)
      = [a, b, c, d, e, f, g, h] :: chunks8 rest := rfl

/-- Every chunk produced by chunks8 has at most 8 bits. -/
theorem chunks8_short : ∀ (l : List Bool), ∀ c ∈ chunks8 l, c.length ≤ 8
  | [] => by simp [chunks8]
  | [a] => by simp [chunks8]
  | [a, b] => by simp [chunks8]
  | [a, b, c] => by simp [chunks8]
  | [a, b, c, d] => by simp [chunks8]
  | [a, b, c, d, e] => by simp [chunks8]
  | [a, b, c, d, e, f] => by simp [chunks8]
  | [a, b, c, d, e, f, g] => by simp [chunks8]
  | a :: b :: c :: d :: e :: f :: g :: h :: rest => by
      rw [chunks8_cons8]
      intro x hx
      rcases List.mem_cons.mp hx with hx1 | hx2
      · simp [hx1]
      · exact chunks8_short rest x hx2

/-- The first bit of the first chunk is the first bit of the sequence. -/
theorem chunks8_head : ∀ (l : List Bool), ((chunks8 l).headD []).headD false = l.headD false
  | [] => rfl
  | [_] => rfl
  | [_, _] => rfl
  | [_, _, _] => rfl
  | [_, _, _, _] => rfl
  | [_, _, _, _, _] => rfl
  | [_, _, _, _, _, _] => rfl
  | [_, _, _, _, _, _, _] => rfl
  | _ :: _ :: _ :: _ :: _ :: _ :: _ :: _ :: _ => rfl

set_option maxRecDepth 4000 in
/-- Per-chunk wire fact for full chunks: unpacking (Msb0) the bit-reversed
Lsb0 byte of an 8-bit chunk gives the chunk back. -/
theorem byte8_unpack : ∀ a b c d e f g h : Bool,
    toBits 8 (reverseBits8 (lsbByte [a, b, c, d, e, f, g, h])) = [a, b, c, d, e, f, g, h] := by
  decide

set_option maxRecDepth 4000 in
/-- msbByte agrees with reverseBits8 of lsbByte on every chunk of at most
8 bits (the padding bits of a short final chunk are zero either way). -/
theorem msbByte_eq_rev (c : List Bool) (h : c.length ≤ 8) :
    msbByte c = reverseBits8 (lsbByte c) := by
  match c with
  | [] => decide
  | [a] => revert a; decide
  | [a, b] => revert a b; decide
  | [a, b, c] => revert a b c; decide
  | [a, b, c, d] => revert a b c d; decide
  | [a, b, c, d, e] => revert a b c d e; decide
  | [a, b, c, d, e, f] => revert a b c d e f; decide
  | [a, b, c, d, e, f, g] => revert a b c d e f g; decide
  | [a, b, c, d, e, f, g, h2] => revert a b c d e f g h2; decide
  | a :: b :: c :: d :: e :: f :: g :: h2 :: i :: rest => simp at h

set_option maxRecDepth 4000 in
theorem lsbByte_lt (c : List Bool) (h : c.length ≤ 8) : lsbByte c < 2 ^ 8 := by
  match c with
  | [] => decide
  | [a] => revert a; decide
  | [a, b] => revert a b; decide
  | [a, b, c] => revert a b c; decide
  | [a, b, c, d] => revert a b c d; decide
  | [a, b, c, d, e] => revert a b c d e; decide
  | [a, b, c, d, e, f] => revert a b c d e f; decide
  | [a, b, c, d, e, f, g] => revert a b c d e f g; decide
  | [a, b, c, d, e, f, g, h2] => revert a b c d e f g h2; decide
  | a :: b :: c :: d :: e :: f :: g :: h2 :: i :: rest => simp at h

set_option maxRecDepth 8000 in
theorem reverseBits8_invol (x : Nat) (h : x < 2 ^ 8) :
    reverseBits8 (reverseBits8 x) = x := by
  have hall : ∀ y : Fin 256, reverseBits8 (reverseBits8 (y : Nat)) = (y : Nat) := by decide
  exact hall ⟨x, h⟩

set_option maxRecDepth 4000 in
theorem headBit_rev_lsb (c : List Bool) (h : c.length ≤ 8) :
    Nat.testBit (reverseBits8 (lsbByte c)) 7 = c.headD false := by
  match c with
  | [] => decide
  | [a] => revert a; decide
  | [a, b] => revert a b; decide
  | [a, b, c] => revert a b c; decide
  | [a, b, c, d] => revert a b c d; decide
  | [a, b, c, d, e] => revert a b c d e; decide
  | [a, b, c, d, e, f] => revert a b c d e f; decide
  | [a, b, c, d, e, f, g] => revert a b c d e f g; decide
  | [a, b, c, d, e, f, g, h2] => revert a b c d e f g h2; decide
  | a :: b :: c :: d :: e :: f :: g :: h2 :: i :: rest => simp at h

/-- Unpacking the Lsb0-packed-and-bit-reversed wire bytes of a byte-aligned
bit sequence recovers the sequence: the wire encoding is Msb0 packing. -/
theorem wire_roundtrip : ∀ (l : List Bool), 8 ∣ l.length →
    fromSliceMsb0 (BitEncoder.encode .lsb0 ⟨l⟩) = l
  | [], _ => rfl
  | [a], h => by simp only [List.length_cons, List.length_nil] at h; omega
  | [a, b], h => by simp only [List.length_cons, List.length_nil] at h; omega
  | [a, b, c], h => by simp only [List.length_cons, List.length_nil] at h; omega
  | [a, b, c, d], h => by simp only [List.length_cons, List.length_nil] at h; omega
  | [a, b, c, d, e], h => by simp only [List.length_cons, List.length_nil] at h; omega
  | [a, b, c, d, e, f], h => by simp only [List.length_cons, List.length_nil] at h; omega
  | [a, b, c, d, e, f, g], h => by simp only [List.length_cons, List.length_nil] at h; omega
  | a :: b :: c :: d :: e :: f :: g :: h2 :: rest, h => by
      have hrest : 8 ∣ rest.length := by
        simp only [List.length_cons] at h
        omega
      have ih := wire_roundtrip rest hrest
      simp only [BitEncoder.encode, BitEncoder.reverse_bits_in_bytes, intoVec] at ih ⊢
      rw [chunks8_cons8]
      simp only [List.map_cons, fromSliceMsb0_cons]
      rw [byte8_unpack a b c d e f g h2, ih]
      rfl

/-! ## Lemmas: encoder, padding, frame encode and the round-trip -/

theorem add_data_ok (e : BitEncoder) (v n : Nat)
    (h1 : e.frame.length + n ≤ 2 ^ 32) (h2 : n ≤ 32) :
    e.add_data v n = .ok ⟨e.frame ++ toBits n v⟩ := by
  simp only [BitEncoder.add_data]
  rw [if_neg (by omega), if_neg (by omega)]

theorem padSteps_ok : ∀ (k : Nat) (e : BitEncoder), e.frame.length + k ≤ 2 ^ 32 →
    padSteps k e = .ok ⟨e.frame ++ List.replicate k false⟩
  | 0, e, _ => by simp [padSteps]
  | k + 1, e, h => by
      rw [padSteps, add_data_ok e 0 1 (by omega) (by omega)]
      show padSteps k ⟨e.frame ++ toBits 1 0⟩ = _
      rw [padSteps_ok k ⟨e.frame ++ toBits 1 0⟩ (by simp [toBits_length]; omega)]
      rw [show toBits 1 0 = [false] from rfl]
      simp [List.replicate_succ]

theorem padSteps_err : ∀ (k : Nat) (e : BitEncoder), 1 ≤ k → 2 ^ 32 < e.frame.length + k →
    padSteps k e = .error ⟨0b1000, "Maximum of 2^32 bits allowed", .SizeConstraintViolation⟩
  | k + 1, e, _, h => by
      by_cases hlt : 2 ^ 32 < e.frame.length + 1
      · rw [padSteps]
        simp only [BitEncoder.add_data]
        rw [if_pos (by omega)]
      · rw [padSteps, add_data_ok e 0 1 (by omega) (by omega)]
        show padSteps k ⟨e.frame ++ toBits 1 0⟩ = _
        have hk : 1 ≤ k := by omega
        exact padSteps_err k ⟨e.frame ++ toBits 1 0⟩ hk (by simp [toBits_length]; omega)

theorem padSteps_ok2 (k : Nat) (e : BitEncoder)
    (h : k = 0 ∨ e.frame.length + k ≤ 2 ^ 32) :
    padSteps k e = .ok ⟨e.frame ++ List.replicate k false⟩ := by
  rcases h with h | h
  · subst h
    simp [padSteps]
  · exact padSteps_ok k e h

theorem add_version_ok :
    BitEncoder.new.add_data (Version.to_u8 .V1 % 2 ^ 8) 8 = .ok ⟨toBits 8 1⟩ := by
  rw [show Version.to_u8 .V1 % 2 ^ 8 = 1 by norm_num [Version.to_u8]]
  rw [add_data_ok _ _ _ (by simp [BitEncoder.new]) (by norm_num)]
  simp [BitEncoder.new]

theorem add_event_ok (ev : Nat) :
    (⟨toBits 8 1⟩ : BitEncoder).add_data (ev % 2 ^ 16) 16
      = .ok ⟨toBits 8 1 ++ toBits 16 (ev % 2 ^ 16)⟩ := by
  rw [add_data_ok _ _ _ (by simp [toBits_length]) (by norm_num)]

theorem add_size_ok (ev L : Nat) :
    (⟨toBits 8 1 ++ toBits 16 (ev % 2 ^ 16)⟩ : BitEncoder).add_data (L % 2 ^ 32) 32
      = .ok ⟨(toBits 8 1 ++ toBits 16 (ev % 2 ^ 16)) ++ toBits 32 L⟩ := by
  rw [add_data_ok _ _ _ (by simp [toBits_length]) (by norm_num), toBits_mod 32 L]

theorem header_len (ev : Nat) (payload : List Bool) :
    (((toBits 8 1 ++ toBits 16 (ev % 2 ^ 16)) ++ toBits 32 payload.length)
      ++ payload).length = 56 + payload.length := by
  simp only [List.length_append, toBits_length]

theorem encode_ok_form (o : BitOrd) (ev : Nat) (payload : List Bool)
    (h8 : 8 ≤ payload.length) (hle : payload.length ≤ 2 ^ 32)
    (hfit : payload.length % 8 = 0
      ∨ 56 + payload.length + (8 - payload.length % 8) % 8 ≤ 2 ^ 32) :
    FrameEncoder.encode o .V1 ev payload
      = .ok (BitEncoder.encode o ⟨wireBits (ev % 2 ^ 16) payload⟩) := by
  have hpad : padSteps ((8 - payload.length % 8) % 8)
      ⟨((toBits 8 1 ++ toBits 16 (ev % 2 ^ 16)) ++ toBits 32 payload.length) ++ payload⟩
      = .ok ⟨(((toBits 8 1 ++ toBits 16 (ev % 2 ^ 16)) ++ toBits 32 payload.length) ++ payload)
          ++ List.replicate ((8 - payload.length % 8) % 8) false⟩ := by
    apply padSteps_ok2
    rcases hfit with hc | hc
    · left
      omega
    · right
      rw [header_len]
      omega
  have hfr : (((toBits 8 1 ++ toBits 16 (ev % 2 ^ 16)) ++ toBits 32 payload.length) ++ payload)
        ++ List.replicate ((8 - payload.length % 8) % 8) false
      = wireBits (ev % 2 ^ 16) payload := by
    simp [wireBits, List.append_assoc]
  simp only [FrameEncoder.encode, add_version_ok]
  rw [if_neg (show ¬ payload.length > 2 ^ 32 by omega),
    if_neg (show ¬ payload.length < 8 by omega)]
  simp only [add_event_ok, add_size_ok, BitEncoder.append_data_from]
  rw [header_len]
  have hmod : (56 + payload.length) % 8 = payload.length % 8 := by omega
  rw [hmod, hpad, hfr]

theorem encode_err_over (o : BitOrd) (ev : Nat) (payload : List Bool)
    (h : 2 ^ 32 < payload.length) :
    FrameEncoder.encode o .V1 ev payload
      = .error ⟨0b1000, "Maximum of 2^32 bits allowed", .SizeConstraintViolation⟩ := by
  simp only [FrameEncoder.encode, add_version_ok]
  rw [if_pos (show payload.length > 2 ^ 32 by omega)]

theorem encode_err_under (o : BitOrd) (ev : Nat) (payload : List Bool)
    (h : payload.length < 8) :
    FrameEncoder.encode o .V1 ev payload
      = .error ⟨0b1001, "Minimum of 8 bits allowed", .SizeConstraintViolation⟩ := by
  have h2 : ¬ payload.length > 2 ^ 32 := by omega
  simp only [FrameEncoder.encode, add_version_ok]
  rw [if_neg h2, if_pos h]

theorem encode_err_pad (o : BitOrd) (ev : Nat) (payload : List Bool)
    (h8 : 8 ≤ payload.length) (hle : payload.length ≤ 2 ^ 32)
    (hmod8 : payload.length % 8 ≠ 0)
    (hbig : 2 ^ 32 < 56 + payload.length + (8 - payload.length % 8) % 8) :
    FrameEncoder.encode o .V1 ev payload
      = .error ⟨0b1000, "Maximum of 2^32 bits allowed", .SizeConstraintViolation⟩ := by
  have hpad : padSteps ((8 - payload.length % 8) % 8)
      ⟨((toBits 8 1 ++ toBits 16 (ev % 2 ^ 16)) ++ toBits 32 payload.length) ++ payload⟩
      = .error ⟨0b1000, "Maximum of 2^32 bits allowed", .SizeConstraintViolation⟩ := by
    apply padSteps_err _ _ (by omega)
    rw [header_len]
    omega
  simp only [FrameEncoder.encode, add_version_ok]
  rw [if_neg (show ¬ payload.length > 2 ^ 32 by omega),
    if_neg (show ¬ payload.length < 8 by omega)]
  simp only [add_event_ok, add_size_ok, BitEncoder.append_data_from]
  rw [header_len]
  have hmod : (56 + payload.length) % 8 = payload.length % 8 := by omega
  rw [hmod, hpad]

theorem wireBits_len (ev : Nat) (payload : List Bool) :
    (wireBits ev payload).length
      = 56 + payload.length + (8 - payload.length % 8) % 8 := by
  simp only [wireBits, List.length_append, toBits_length, List.length_replicate]
  omega

theorem read_field0 (C : List Bool) (n v : Nat) (h32 : n ≤ 32) :
    BitDecoder.read_data ⟨toBits n v ++ C, 0⟩ n
      = .ok (v % 2 ^ n, ⟨toBits n v ++ C, n⟩) := by
  have h := read_field [] C n v h32
  simpa using h

theorem read_field_at (A C : List Bool) (n v p : Nat) (h32 : n ≤ 32)
    (hp : A.length = p) :
    BitDecoder.read_data ⟨A ++ (toBits n v ++ C), p⟩ n
      = .ok (v % 2 ^ n, ⟨A ++ (toBits n v ++ C), p + n⟩) := by
  subst hp
  exact read_field A C n v h32

theorem decode_wire (ev : Nat) (payload : List Bool)
    (h8 : 8 ≤ payload.length) (hub : payload.length + 64 ≤ 2 ^ 32) :
    FrameDecoder.decode (BitDecoder.new (BitEncoder.encode .lsb0 ⟨wireBits ev payload⟩))
      = .ok (⟨1, payload.length % 2 ^ 16, ev % 2 ^ 16,
              payload.take (payload.length % 2 ^ 16)⟩,
             ⟨wireBits ev payload, 56⟩) := by
  have hk : (8 - payload.length % 8) % 8 < 8 := Nat.mod_lt _ (by norm_num)
  have hdvd : 8 ∣ (wireBits ev payload).length := by
    rw [wireBits_len]
    omega
  have hbits : fromSliceMsb0 (BitEncoder.encode .lsb0 ⟨wireBits ev payload⟩)
      = wireBits ev payload := wire_roundtrip _ hdvd
  have hunf : wireBits ev payload = toBits 8 1 ++ (toBits 16 ev ++ (toBits 32 payload.length
      ++ (payload ++ List.replicate ((8 - payload.length % 8) % 8) false))) := rfl
  have h1 := read_field0 (toBits 16 ev ++ (toBits 32 payload.length
      ++ (payload ++ List.replicate ((8 - payload.length % 8) % 8) false))) 8 1 (by norm_num)
  have h2 := read_field_at (toBits 8 1) (toBits 32 payload.length
      ++ (payload ++ List.replicate ((8 - payload.length % 8) % 8) false)) 16 ev 8
      (by norm_num) (toBits_length 8 1)
  rw [show (8 : Nat) + 16 = 24 from rfl] at h2
  have h3 := read_field_at (toBits 8 1 ++ toBits 16 ev)
      (payload ++ List.replicate ((8 - payload.length % 8) % 8) false) 32 payload.length 24
      (by norm_num) (by simp only [List.length_append, toBits_length])
  rw [show (24 : Nat) + 32 = 56 from rfl, List.append_assoc] at h3
  have hds : payload.length % 2 ^ 32 % 2 ^ 16 = payload.length % 2 ^ 16 :=
    Nat.mod_mod_of_dvd _ (by norm_num)
  have hdrop := List.drop_left ((toBits 8 1 ++ toBits 16 ev) ++ toBits 32 payload.length)
      (payload ++ List.replicate ((8 - payload.length % 8) % 8) false)
  rw [show (((toBits 8 1 ++ toBits 16 ev) ++ toBits 32 payload.length)).length = 56
      by simp only [List.length_append, toBits_length]] at hdrop
  simp only [List.append_assoc] at hdrop
  have hmle : payload.length % 2 ^ 16 ≤ payload.length := Nat.mod_le _ _
  have hlen56 : (toBits 8 1 ++ (toBits 16 ev ++ (toBits 32 payload.length
      ++ (payload ++ List.replicate ((8 - payload.length % 8) % 8) false)))).length
      = 56 + payload.length + (8 - payload.length % 8) % 8 := by
    rw [← hunf, wireBits_len]
  have h4 : BitDecoder.read_vec ⟨toBits 8 1 ++ (toBits 16 ev ++ (toBits 32 payload.length
      ++ (payload ++ List.replicate ((8 - payload.length % 8) % 8) false))), 56⟩ 56
      (56 + payload.length % 2 ^ 32 % 2 ^ 16)
      = .ok (payload.take (payload.length % 2 ^ 16)) := by
    rw [hds, read_vec_ok _ _ _ (by rw [hlen56]; omega) (by omega) (by rw [hlen56]; omega)]
    rw [show 56 + payload.length % 2 ^ 16 - 56 = payload.length % 2 ^ 16 by omega, hdrop]
    rw [List.take_append_of_le_length hmle]
  simp only [FrameDecoder.decode, BitDecoder.new]
  rw [hbits, hunf]
  simp only [h1, h2, h3, h4]
  rw [show (1 : Nat) % 2 ^ 8 % 2 ^ 8 = 1 from rfl, hds,
    show (ev % 2 ^ 16) % 2 ^ 16 = ev % 2 ^ 16 from Nat.mod_mod_of_dvd ev dvd_rfl]

theorem frameRoundtrip_trunc (ev : Nat) (payload : List Bool) (hev : ev < 2 ^ 16)
    (h8 : 8 ≤ payload.length) (hub : payload.length + 64 ≤ 2 ^ 32) :
    frameRoundtrip ev payload
      = .ok ⟨1, payload.length % 2 ^ 16, ev, payload.take (payload.length % 2 ^ 16)⟩ := by
  have hfit : payload.length % 8 = 0
      ∨ 56 + payload.length + (8 - payload.length % 8) % 8 ≤ 2 ^ 32 := by
    right
    have : (8 - payload.length % 8) % 8 < 8 := Nat.mod_lt _ (by norm_num)
    omega
  simp only [frameRoundtrip, encode_ok_form .lsb0 ev payload h8 (by omega) hfit,
    decode_wire (ev % 2 ^ 16) payload h8 hub]
  rw [Nat.mod_mod_of_dvd ev dvd_rfl, Nat.mod_eq_of_lt hev]

/-- Full case analysis of FrameEncoder.encode for version 1: the three
error conditions in the order the code checks them, and the wire output on
success. -/
theorem encode_result (o : BitOrd) (ev : Nat) (payload : List Bool) :
    FrameEncoder.encode o .V1 ev payload
      = if payload.length < 8 then
          .error ⟨0b1001, "Minimum of 8 bits allowed", .SizeConstraintViolation⟩
        else if 2 ^ 32 < payload.length then
          .error ⟨0b1000, "Maximum of 2^32 bits allowed", .SizeConstraintViolation⟩
        else if payload.length % 8 ≠ 0
            ∧ 2 ^ 32 < 56 + payload.length + (8 - payload.length % 8) % 8 then
          .error ⟨0b1000, "Maximum of 2^32 bits allowed", .SizeConstraintViolation⟩
        else .ok (BitEncoder.encode o ⟨wireBits (ev % 2 ^ 16) payload⟩) := by
  split_ifs with h1 h2 h3
  · exact encode_err_under o ev payload h1
  · exact encode_err_over o ev payload h2
  · exact encode_err_pad o ev payload (by omega) (by omega) h3.1 h3.2
  · apply encode_ok_form o ev payload (by omega) (by omega)
    rcases Nat.eq_zero_or_pos (payload.length % 8) with hz | hz
    · exact Or.inl hz
    · right
      have hk : (8 - payload.length % 8) % 8 < 8 := Nat.mod_lt _ (by norm_num)
      omega

/-- C3: frame encoding fails with SizeConstraintViolation exactly when the
payload bit length is outside the range 8..2^32 or an individual add_data
call rejects its input (n above 32, or the write would push the buffer past
2^32 bits; inside FrameEncoder.encode only the padding writes can do so);
add_data(1, 33) yields code 0b1000 and the undersize case yields 0b1001. -/
theorem C3_encoding_failure_condition :
    (∀ (e : BitEncoder) (v n : Nat),
      (∃ err, e.add_data v n = .error err ∧ err.kind = .SizeConstraintViolation
          ∧ err.code = 0b1000)
        ↔ (2 ^ 32 < e.frame.length + n ∨ 32 < n))
    ∧ BitEncoder.new.add_data 1 33
        = .error ⟨0b1000, "Data of more than 32 bits long are not allowed",
            .SizeConstraintViolation⟩
    ∧ (∀ (o : BitOrd) (ev : Nat) (payload : List Bool),
      (∃ err, FrameEncoder.encode o .V1 ev payload = .error err
          ∧ err.kind = .SizeConstraintViolation)
        ↔ (payload.length < 8 ∨ 2 ^ 32 < payload.length
            ∨ (payload.length % 8 ≠ 0
                ∧ 2 ^ 32 < 56 + payload.length + (8 - payload.length % 8) % 8)))
    ∧ (∀ (o : BitOrd) (ev : Nat) (payload : List Bool),
      (∃ err, FrameEncoder.encode o .V1 ev payload = .error err ∧ err.code = 0b1001)
        ↔ payload.length < 8) := by
  refine ⟨?_, ?_, ?_, ?_⟩
  · intro e v n
    constructor
    · rintro ⟨err, herr, -, -⟩
      by_cases h1 : 2 ^ 32 < e.frame.length + n
      · exact Or.inl h1
      · by_cases h2 : 32 < n
        · exact Or.inr h2
        · rw [add_data_ok e v n (by omega) (by omega)] at herr
          exact absurd herr (by simp)
    · intro h
      by_cases h1 : 2 ^ 32 < e.frame.length + n
      · refine ⟨⟨0b1000, "Maximum of 2^32 bits allowed", .SizeConstraintViolation⟩,
          ?_, rfl, rfl⟩
        simp only [BitEncoder.add_data]
        rw [if_pos (by omega)]
      · refine ⟨⟨0b1000, "Data of more than 32 bits long are not allowed",
          .SizeConstraintViolation⟩, ?_, rfl, rfl⟩
        simp only [BitEncoder.add_data]
        rw [if_neg (by omega), if_pos (by omega)]
  · rfl
  · intro o ev payload
    rw [encode_result]
    split_ifs with h1 h2 h3
    · simp only [Except.error.injEq]
      constructor
      · intro
        exact Or.inl h1
      · intro
        exact ⟨_, rfl, rfl⟩
    · simp only [Except.error.injEq]
      constructor
      · intro
        exact Or.inr (Or.inl h2)
      · intro
        exact ⟨_, rfl, rfl⟩
    · simp only [Except.error.injEq]
      constructor
      · intro
        exact Or.inr (Or.inr h3)
      · intro
        exact ⟨_, rfl, rfl⟩
    · constructor
      · rintro ⟨err, herr, -⟩
        exact absurd herr (by simp)
      · intro h
        exact absurd h (by tauto)
  · intro o ev payload
    rw [encode_result]
    split_ifs with h1 h2 h3
    · exact ⟨fun _ => h1, fun _ => ⟨_, rfl, rfl⟩⟩
    · constructor
      · rintro ⟨err, herr, hcode⟩
        rw [Except.error.injEq] at herr
        rw [← herr] at hcode
        exact absurd hcode (by decide)
      · intro h
        exact absurd h h1
    · constructor
      · rintro ⟨err, herr, hcode⟩
        rw [Except.error.injEq] at herr
        rw [← herr] at hcode
        exact absurd hcode (by decide)
      · intro h
        exact absurd h h1
    · constructor
      · rintro ⟨err, herr, -⟩
        exact absurd herr (by simp)
      · intro h
        exact absurd h h1

/-- C4 (amended): read_data returns a SizeConstraintViolation error exactly
when fewer than n bits remain after the cursor and succeeds otherwise, but
read_vec only returns its error when from is at or past the end of the
buffer; when from is in range and the range is improper (to past the end,
or to before from) the slice indexing panics instead of returning an
error. -/
theorem C4_decoder_read_failures :
    (∀ (d : BitDecoder) (n : Nat),
      (∃ e, d.read_data n = .error e ∧ e.kind = .SizeConstraintViolation)
        ↔ d.frame.length < d.position + n)
    ∧ (∀ (d : BitDecoder) (n : Nat),
      (∃ v d2, d.read_data n = .ok (v, d2)) ↔ d.position + n ≤ d.frame.length)
    ∧ (∀ (d : BitDecoder) (f t : Nat),
      (∃ e, d.read_vec f t = .err e ∧ e.kind = .SizeConstraintViolation)
        ↔ d.frame.length ≤ f)
    ∧ (∀ (d : BitDecoder) (f t : Nat),
      d.read_vec f t = .crash ↔ (f < d.frame.length ∧ ¬ (f ≤ t ∧ t ≤ d.frame.length))) := by
  refine ⟨?_, ?_, ?_, ?_⟩
  · intro d n
    constructor
    · rintro ⟨e, he, -⟩
      by_cases h : d.frame.length < d.position + n
      · exact h
      · rw [read_data_ok d n (by omega)] at he
        exact absurd he (by simp)
    · intro h
      exact ⟨_, read_data_err d n h, rfl⟩
  · intro d n
    constructor
    · rintro ⟨v, d2, hok⟩
      by_cases h : d.position + n ≤ d.frame.length
      · exact h
      · rw [read_data_err d n (by omega)] at hok
        exact absurd hok (by simp)
    · intro h
      exact ⟨_, _, read_data_ok d n h⟩
  · intro d f t
    constructor
    · rintro ⟨e, he, -⟩
      by_cases h : d.frame.length ≤ f
      · exact h
      · simp only [BitDecoder.read_vec] at he
        rw [if_neg (by omega)] at he
        split_ifs at he
    · intro h
      refine ⟨⟨0b1100, "out of bound", .SizeConstraintViolation⟩, ?_, rfl⟩
      simp only [BitDecoder.read_vec]
      rw [if_pos (by omega)]
  · intro d f t
    simp only [BitDecoder.read_vec]
    constructor
    · intro h
      by_cases ha : f ≥ d.frame.length
      · rw [if_pos ha] at h
        exact absurd h (by simp)
      · rw [if_neg ha] at h
        by_cases hb : f ≤ t ∧ t ≤ d.frame.length
        · rw [if_pos hb] at h
          exact absurd h (by simp)
        · exact ⟨by omega, hb⟩
    · rintro ⟨ha, hb⟩
      rw [if_neg (by omega), if_neg hb]

/-- C4 counterexample: with an 8-bit buffer, read_vec(4, 16) crosses the
end of the buffer, yet the call panics on the slice indexing rather than
returning the SizeConstraintViolation the claim requires. -/
theorem C4_counterexample :
    BitDecoder.read_vec (BitDecoder.new [0]) 4 16 = .crash
    ∧ ∀ e : Error, (PResult.crash : PResult (List Bool)) ≠ .err e := by
  exact ⟨rfl, by simp⟩

/-- C9: BitDecoder.read_data has no n at most 32 check: whenever at least n
bits remain, the read succeeds, advances the cursor by n, and returns the
big-endian value of the n consumed bits reduced modulo 2^32 (the u32
accumulator discards the earlier bits); BitEncoder.add_data by contrast
always rejects n = 33. -/
theorem C9_read_data_unbounded :
    (∀ (frame : List Bool) (pos n : Nat), 32 < n → pos + n ≤ frame.length →
      BitDecoder.read_data ⟨frame, pos⟩ n
        = .ok (beVal ((frame.drop pos).take n) % 2 ^ 32, ⟨frame, pos + n⟩))
    ∧ (∀ (e : BitEncoder) (v : Nat), ∃ err, e.add_data v 33 = .error err) := by
  constructor
  · intro frame pos n _ hle
    exact read_data_ok ⟨frame, pos⟩ n hle
  · intro e v
    by_cases h1 : 2 ^ 32 < e.frame.length + 33
    · refine ⟨⟨0b1000, "Maximum of 2^32 bits allowed", .SizeConstraintViolation⟩, ?_⟩
      simp only [BitEncoder.add_data]
      rw [if_pos (by omega)]
    · refine ⟨⟨0b1000, "Data of more than 32 bits long are not allowed",
        .SizeConstraintViolation⟩, ?_⟩
      simp only [BitEncoder.add_data]
      rw [if_neg (by omega), if_pos (by omega)]

/-- C9 witness: a 40-bit buffer whose first and 33rd bits are set; reading
33 bits returns 1 = (2^32 + 1) mod 2^32, discarding the first bit. -/
theorem C9_witness :
    (32 < 33 ∧ 0 + 33 ≤ (fromSliceMsb0 [128, 0, 0, 0, 128]).length)
    ∧ BitDecoder.read_data ⟨fromSliceMsb0 [128, 0, 0, 0, 128], 0⟩ 33
      = .ok (beVal (((fromSliceMsb0 [128, 0, 0, 0, 128]).drop 0).take 33) % 2 ^ 32,
             ⟨fromSliceMsb0 [128, 0, 0, 0, 128], 0 + 33⟩) :=
  ⟨⟨by decide, by decide⟩,
    C9_read_data_unbounded.1 (fromSliceMsb0 [128, 0, 0, 0, 128]) 0 33 (by decide) (by decide)⟩

/-- C1 (amended): for version 1, any 16-bit event id and any payload of 8
to 65535 bits, decoding the frame encoder output recovers version, event,
data_size and the exact payload bits; the amendment restricts the payload
range from 2^32 to 65535 bits because FrameDecoder stores data_size in a
u16, truncating larger sizes. -/
theorem C1_frame_roundtrip (ev : Nat) (payload : List Bool) (hev : ev < 2 ^ 16)
    (h8 : 8 ≤ payload.length) (hle : payload.length ≤ 65535) :
    frameRoundtrip ev payload = .ok ⟨1, payload.length, ev, payload⟩ := by
  have h := frameRoundtrip_trunc ev payload hev h8 (by omega)
  rw [Nat.mod_eq_of_lt (show payload.length < 2 ^ 16 by omega), List.take_length] at h
  exact h

/-- C1 witness: scenario S1 with version 1, event 0 and the 32-bit payload
of the ASCII bytes of the word test. -/
theorem C1_frame_roundtrip_witness :
    (0 < 2 ^ 16 ∧ 8 ≤ (fromSliceMsb0 [116, 101, 115, 116]).length
      ∧ (fromSliceMsb0 [116, 101, 115, 116]).length ≤ 65535)
    ∧ frameRoundtrip 0 (fromSliceMsb0 [116, 101, 115, 116])
      = .ok ⟨1, 32, 0, fromSliceMsb0 [116, 101, 115, 116]⟩ := by
  refine ⟨⟨by norm_num, by decide, by decide⟩, ?_⟩
  rw [C1_frame_roundtrip 0 (fromSliceMsb0 [116, 101, 115, 116]) (by norm_num)
    (by decide) (by decide)]
  rfl

/-- C1 counterexample: a payload of 65536 zero bits lies inside the range
the claim quantifies over, but decoding the encoded frame yields
data_size 0 (65536 mod 2^16) and an empty payload, not data_size 65536
with the original bits. -/
theorem C1_counterexample :
    frameRoundtrip 0 (List.replicate 65536 false) = .ok ⟨1, 0, 0, []⟩
    ∧ (0 : Nat) ≠ 65536 ∧ (List.replicate 65536 false).length = 65536 := by
  refine ⟨?_, by norm_num, by rw [List.length_replicate]⟩
  have h := frameRoundtrip_trunc 0 (List.replicate 65536 false) (by norm_num)
    (by rw [List.length_replicate]; norm_num) (by rw [List.length_replicate]; norm_num)
  rw [List.length_replicate, show (65536 : Nat) % 2 ^ 16 = 0 by norm_num,
    List.take_zero] at h
  exact h

theorem encode_msb0_eq (l : List Bool) :
    BitEncoder.encode .msb0 ⟨l⟩ = (BitEncoder.encode .lsb0 ⟨l⟩).map reverseBits8 := by
  simp only [BitEncoder.encode, BitEncoder.reverse_bits_in_bytes, intoVec, List.map_map]
  apply List.map_congr_left
  intro c hc
  have h8 := chunks8_short l c hc
  simp only [Function.comp_apply]
  rw [msbByte_eq_rev c h8]

theorem encode_lsb0_headbit (l : List Bool) :
    Nat.testBit ((BitEncoder.encode .lsb0 ⟨l⟩).headD 0) 7 = l.headD false := by
  have hh := chunks8_head l
  simp only [BitEncoder.encode, BitEncoder.reverse_bits_in_bytes, intoVec, List.map_map]
  cases hc : chunks8 l with
  | nil =>
      rw [hc] at hh
      simp only [List.headD_nil] at hh
      simp only [List.map_nil, List.headD_nil]
      rw [hh.symm]
      decide
  | cons c cs =>
      rw [hc] at hh
      simp only [List.headD_cons] at hh
      have h8 : c.length ≤ 8 := chunks8_short l c (hc ▸ List.mem_cons_self c cs)
      simp only [List.map_cons, List.headD_cons, Function.comp_apply]
      rw [headBit_rev_lsb c h8, hh]

/-- C5: an encoder replaying any successful sequence of add_data and
add_bytes calls emits, under Msb0, exactly the byte-wise bit-reversal of
what it emits under Lsb0 (the logical bit sequence pushed is the same
either way; only packing differs), and under Lsb0 the most significant bit
of the first wire byte is the first appended bit. -/
theorem C5_bit_order_duality (cs : List EncCall) (e : BitEncoder)
    (h : runCalls cs BitEncoder.new = .ok e) :
    BitEncoder.encode .msb0 e = (BitEncoder.encode .lsb0 e).map reverseBits8
    ∧ Nat.testBit ((BitEncoder.encode .lsb0 e).headD 0) 7 = e.frame.headD false := by
  obtain ⟨l⟩ := e
  exact ⟨encode_msb0_eq l, encode_lsb0_headbit l⟩

/-- C5 witness: one add_data(1, 8) call; the Lsb0 wire byte is 0x01, the
Msb0 wire byte 0x80, bit-reversals of each other. -/
theorem C5_bit_order_duality_witness :
    runCalls [.data 1 8] BitEncoder.new = .ok ⟨toBits 8 1⟩
    ∧ (BitEncoder.encode .msb0 ⟨toBits 8 1⟩
        = (BitEncoder.encode .lsb0 ⟨toBits 8 1⟩).map reverseBits8
      ∧ Nat.testBit ((BitEncoder.encode .lsb0 ⟨toBits 8 1⟩).headD 0) 7
        = (toBits 8 1 : List Bool).headD false) :=
  ⟨rfl, C5_bit_order_duality [.data 1 8] ⟨toBits 8 1⟩ rfl⟩

/-! ## Lemmas: the fyve reader -/

theorem read_data_ok_inv (d : BitDecoder) (n v : Nat) (d2 : BitDecoder)
    (h : d.read_data n = .ok (v, d2)) :
    d2.frame = d.frame ∧ d2.position = d.position + n ∧ d.position + n ≤ d.frame.length := by
  by_cases hle : d.position + n ≤ d.frame.length
  · rw [read_data_ok d n hle] at h
    simp only [Except.ok.injEq, Prod.mk.injEq] at h
    rw [← h.2]
    exact ⟨rfl, rfl, hle⟩
  · rw [read_data_err d n (by omega)] at h
    exact absurd h (by simp)

theorem fyveChainAux_eq (gas : Nat) : ∀ (d : BitDecoder) (value : List Nat) (next : Nat),
    d.frame.length ≤ d.position + 5 * gas + 4 →
    fyveChainAux gas d value next = fyveChain d value next := by
  induction gas with
  | zero =>
      intro d value next h
      rw [fyveChain, fyveChainAux]
      by_cases hn : next = 0x1f
      · rw [if_pos hn, if_pos hn]
        cases hr : d.read_data 5 with
        | error e => rfl
        | ok p =>
            obtain ⟨-, -, hle⟩ := read_data_ok_inv d 5 p.1 p.2 (by rw [hr])
            omega
      · rw [if_neg hn, if_neg hn]
  | succ gas ih =>
      intro d value next h
      rw [fyveChain, fyveChainAux]
      by_cases hn : next = 0x1f
      · rw [if_pos hn, if_pos hn]
        cases hr : d.read_data 5 with
        | error e => rfl
        | ok p =>
            obtain ⟨v, d2⟩ := p
            obtain ⟨hf, hp, hle⟩ := read_data_ok_inv d 5 v d2 hr
            exact ih d2 (value ++ [v % 2 ^ 8]) (v % 2 ^ 8) (by rw [hf, hp]; omega)
      · rw [if_neg hn, if_neg hn]

theorem fromFyveC_eq (fy : Nat) (d : BitDecoder) :
    Operation.fromFyveC fy d = Operation.fromFyve fy d := by
  simp only [Operation.fromFyveC, Operation.fromFyve]
  cases OperatingCode.fromFyve fy with
  | System => rfl
  | Character =>
      by_cases hfy : fy = 0x1f
      · rw [if_pos hfy, if_pos hfy]
        cases hr : d.read_data 5 with
        | error e => rfl
        | ok p =>
            obtain ⟨v, d2⟩ := p
            obtain ⟨hf, hp, -⟩ := read_data_ok_inv d 5 v d2 hr
            dsimp only
            rw [fyveChainAux_eq d.frame.length d2 [fy, v % 2 ^ 8] (v % 2 ^ 8)
              (by rw [hf]; omega)]
      · rw [if_neg hfy, if_neg hfy]

theorem get_opC_eq (d : BitDecoder) : FyveImpl.get_opC d = FyveImpl.get_op d := by
  simp only [FyveImpl.get_opC, FyveImpl.get_op]
  cases h : FyveImpl.read_fyve d with
  | error e => rfl
  | ok p =>
      obtain ⟨fy, d2⟩ := p
      have hfr : d2.frame = d.frame := by
        simp only [FyveImpl.read_fyve] at h
        cases hr : d.read_data 5 with
        | error e => rw [hr] at h; exact absurd h (by simp)
        | ok q =>
            rw [hr] at h
            simp only [Except.ok.injEq, Prod.mk.injEq] at h
            rw [← h.2]
            exact (read_data_ok_inv d 5 q.1 q.2 (by rw [hr])).1
      show Operation.fromFyveC fy d2 = Operation.fromFyve fy d2
      exact fromFyveC_eq fy d2

theorem fyveChain_ones : ∀ (m : Nat) (pre : List Bool) (value : List Nat) (post : List Bool)
    (p : Nat), p = pre.length →
    fyveChain ⟨pre ++ (List.replicate (5 * m) true ++ ([false, false, false, false, true] ++ post)),
               p⟩ value 31
      = .ok (value ++ (List.replicate m 31 ++ [1]),
             ⟨pre ++ (List.replicate (5 * m) true ++ ([false, false, false, false, true] ++ post)),
              p + (5 * m + 5)⟩) := by
  intro m
  induction m with
  | zero =>
      intro pre value post p hp
      subst hp
      simp only [Nat.mul_zero, List.replicate_zero, List.nil_append]
      rw [fyveChain, if_pos rfl]
      have hr := read_data_exact pre [false, false, false, false, true] post 5 rfl (by norm_num)
      rw [show beVal [false, false, false, false, true] = 1 from rfl] at hr
      rw [hr]
      dsimp only
      rw [show (1 : Nat) % 2 ^ 8 = 1 from rfl]
      rw [fyveChain, if_neg (by norm_num)]
  | succ m ih =>
      intro pre value post p hp
      subst hp
      have hsplit : List.replicate (5 * (m + 1)) true
          = List.replicate 5 true ++ List.replicate (5 * m) true := by
        rw [← List.replicate_add]
        congr 1
        omega
      rw [hsplit]
      have hassoc : pre ++ ((List.replicate 5 true ++ List.replicate (5 * m) true)
            ++ ([false, false, false, false, true] ++ post))
          = pre ++ (List.replicate 5 true ++ (List.replicate (5 * m) true
            ++ ([false, false, false, false, true] ++ post))) := by
        simp [List.append_assoc]
      rw [hassoc]
      rw [fyveChain, if_pos rfl]
      have hr := read_data_exact pre (List.replicate 5 true)
        (List.replicate (5 * m) true ++ ([false, false, false, false, true] ++ post)) 5 rfl
        (by norm_num)
      rw [show beVal (List.replicate 5 true) = 31 from rfl] at hr
      rw [hr]
      dsimp only
      rw [show (31 : Nat) % 2 ^ 8 = 31 from rfl]
      have hassoc2 : pre ++ (List.replicate 5 true ++ (List.replicate (5 * m) true
            ++ ([false, false, false, false, true] ++ post)))
          = (pre ++ List.replicate 5 true) ++ (List.replicate (5 * m) true
            ++ ([false, false, false, false, true] ++ post)) := by
        simp [List.append_assoc]
      rw [hassoc2, ih (pre ++ List.replicate 5 true) (value ++ [31]) post (pre.length + 5)
        (by simp)]
      have hval : (value ++ [31]) ++ (List.replicate m 31 ++ [1])
          = value ++ (List.replicate (m + 1) 31 ++ [1]) := by
        simp [List.replicate_succ, List.append_assoc]
      have hpos : pre.length + 5 + (5 * m + 5) = pre.length + (5 * (m + 1) + 5) := by
        omega
      rw [hval, hpos]

theorem fromFyve_31 (d : BitDecoder) :
    Operation.fromFyve 31 d
      = match fyveChain d [31] 31 with
        | .error e => .error e
        | .ok (value, d3) => .ok (⟨.Character, none, value⟩, d3) := by
  unfold Operation.fromFyve
  rw [show OperatingCode.fromFyve 31 = OperatingCode.Character from rfl]
  rw [if_pos (show (31 : Nat) = 0x1f from rfl)]
  conv_rhs => rw [fyveChain, if_pos (show (31 : Nat) = 0x1f from rfl)]
  cases hr : d.read_data 5 with
  | error e => rfl
  | ok p => rfl

theorem get_op_ones (m : Nat) (post : List Bool) :
    FyveImpl.get_op ⟨List.replicate (5 * m + 5) true
        ++ ([false, false, false, false, true] ++ post), 0⟩
      = .ok (⟨.Character, none, 31 :: (List.replicate m 31 ++ [1])⟩,
             ⟨List.replicate (5 * m + 5) true ++ ([false, false, false, false, true] ++ post),
              5 * m + 10⟩) := by
  have hsplit : List.replicate (5 * m + 5) true
      = List.replicate 5 true ++ List.replicate (5 * m) true := by
    rw [← List.replicate_add]
    congr 1
    omega
  rw [hsplit, List.append_assoc]
  have hr := read_data_exact [] (List.replicate 5 true)
    (List.replicate (5 * m) true ++ ([false, false, false, false, true] ++ post)) 5 rfl
    (by norm_num)
  rw [show beVal (List.replicate 5 true) = 31 from rfl] at hr
  simp only [List.nil_append, List.length_nil, Nat.zero_add] at hr
  simp only [FyveImpl.get_op, FyveImpl.read_fyve, hr]
  rw [show (31 : Nat) % 2 ^ 8 = 31 from rfl]
  rw [fromFyve_31]
  rw [fyveChain_ones m (List.replicate 5 true) [31] post 5 (by simp)]
  have hval : ([31] : List Nat) ++ (List.replicate m 31 ++ [1])
      = 31 :: (List.replicate m 31 ++ [1]) := rfl
  have hpos : 5 + (5 * m + 5) = 5 * m + 10 := by omega
  rw [hval, hpos]

/-- C2 (amended): one invocation of the fyve reader consumes exactly 10
bits when the first 5-bit chunk is 0b00000 (a system code), exactly 5 bits
when the first chunk is any other value than 0b11111, and 5k + 10 bits when
the first k + 1 chunks are 0b11111 followed by a non-0b11111 chunk -- the
continuation loop has no bound, so consumption is unbounded over adversarial
inputs rather than capped at 20 bits as the claim states. -/
theorem C2_fyve_consumption :
    (∀ (c post : List Bool), c.length = 5 →
      FyveImpl.get_op ⟨[false, false, false, false, false] ++ (c ++ post), 0⟩
        = .ok (⟨.System, some (OperationCode.fromFyve (beVal c)), [0, beVal c]⟩,
               ⟨[false, false, false, false, false] ++ (c ++ post), 10⟩))
    ∧ (∀ (c post : List Bool), c.length = 5 → beVal c ≠ 0 → beVal c ≠ 31 →
      FyveImpl.get_op ⟨c ++ post, 0⟩
        = .ok (⟨.Character, none, [beVal c]⟩, ⟨c ++ post, 5⟩))
    ∧ (∀ (m : Nat) (post : List Bool),
      FyveImpl.get_op ⟨List.replicate (5 * m + 5) true
          ++ ([false, false, false, false, true] ++ post), 0⟩
        = .ok (⟨.Character, none, 31 :: (List.replicate m 31 ++ [1])⟩,
               ⟨List.replicate (5 * m + 5) true ++ ([false, false, false, false, true] ++ post),
                5 * m + 10⟩)) := by
  refine ⟨?_, ?_, fun m post => get_op_ones m post⟩
  · intro c post hc5
    have hr := read_data_exact [] [false, false, false, false, false] (c ++ post) 5 rfl
      (by norm_num)
    rw [show beVal [false, false, false, false, false] = 0 from rfl] at hr
    simp only [List.nil_append, List.length_nil, Nat.zero_add] at hr
    simp only [FyveImpl.get_op, FyveImpl.read_fyve, hr]
    rw [show (0 : Nat) % 2 ^ 8 = 0 from rfl]
    unfold Operation.fromFyve
    rw [show OperatingCode.fromFyve 0 = OperatingCode.System from rfl]
    have hr2 := read_data_exact [false, false, false, false, false] c post 5 hc5
      (by norm_num)
    rw [show ([false, false, false, false, false] : List Bool).length = 5 from rfl] at hr2
    rw [hr2]
    dsimp only
    have hmod : beVal c % 2 ^ 8 = beVal c :=
      Nat.mod_eq_of_lt (lt_of_lt_of_le (beVal_lt c) (by rw [hc5]; norm_num))
    rw [hmod, show (5 : Nat) + 5 = 10 from rfl]
  · intro c post hc5 h0 h31
    have hr := read_data_exact [] c post 5 hc5 (by norm_num)
    simp only [List.nil_append, List.length_nil, Nat.zero_add] at hr
    simp only [FyveImpl.get_op, FyveImpl.read_fyve, hr]
    have hmod : beVal c % 2 ^ 8 = beVal c :=
      Nat.mod_eq_of_lt (lt_of_lt_of_le (beVal_lt c) (by rw [hc5]; norm_num))
    rw [hmod]
    unfold Operation.fromFyve
    rw [show OperatingCode.fromFyve (beVal c) = OperatingCode.Character from
      by unfold OperatingCode.fromFyve; rw [if_neg h0]]
    rw [if_neg h31]

/-- C2 witness: a system read of Utf8Chain-like shape consumes 10 bits, a
plain character consumes 5, and a zero-continuation chain consumes 10. -/
theorem C2_fyve_consumption_witness :
    (([false, false, false, false, true] : List Bool).length = 5
      ∧ FyveImpl.get_op ⟨[false, false, false, false, false]
            ++ ([false, false, false, false, true] ++ []), 0⟩
        = .ok (⟨.System, some (OperationCode.fromFyve (beVal [false, false, false, false, true])),
                [0, beVal [false, false, false, false, true]]⟩,
               ⟨[false, false, false, false, false] ++ ([false, false, false, false, true] ++ []),
                10⟩))
    ∧ (([false, false, false, true, false] : List Bool).length = 5
        ∧ beVal [false, false, false, true, false] ≠ 0
        ∧ beVal [false, false, false, true, false] ≠ 31
        ∧ FyveImpl.get_op ⟨[false, false, false, true, false] ++ [], 0⟩
          = .ok (⟨.Character, none, [beVal [false, false, false, true, false]]⟩,
                 ⟨[false, false, false, true, false] ++ [], 5⟩))
    ∧ FyveImpl.get_op ⟨List.replicate (5 * 0 + 5) true
          ++ ([false, false, false, false, true] ++ []), 0⟩
        = .ok (⟨.Character, none, 31 :: (List.replicate 0 31 ++ [1])⟩,
               ⟨List.replicate (5 * 0 + 5) true ++ ([false, false, false, false, true] ++ []),
                5 * 0 + 10⟩) :=
  ⟨⟨rfl, C2_fyve_consumption.1 [false, false, false, false, true] [] rfl⟩,
   ⟨rfl, by decide, by decide,
    C2_fyve_consumption.2.1 [false, false, false, true, false] [] rfl (by decide) (by decide)⟩,
   C2_fyve_consumption.2.2 0 []⟩

/-- C2 counterexample: on the 4-byte input FF FF FF 84 a single get_op
invocation consumes 30 bits (five 0b11111 chunks then 0b00001), exceeding
the 20-bit bound of the claim. -/
theorem C2_counterexample :
    FyveImpl.get_op (BitDecoder.new [255, 255, 255, 132])
      = .ok (⟨.Character, none, [31, 31, 31, 31, 31, 1]⟩,
             ⟨fromSliceMsb0 [255, 255, 255, 132], 30⟩)
    ∧ ¬ (30 ≤ 20) := by
  constructor
  · have hfr : fromSliceMsb0 [255, 255, 255, 132]
        = List.replicate (5 * 4 + 5) true
          ++ ([false, false, false, false, true] ++ [false, false]) := by decide
    rw [show (BitDecoder.new [255, 255, 255, 132])
        = ⟨List.replicate (5 * 4 + 5) true
            ++ ([false, false, false, false, true] ++ [false, false]), 0⟩ from by
      rw [BitDecoder.new, hfr]]
    rw [get_op_ones 4 [false, false], hfr]
    rfl
  · decide

theorem charRT_eq : charRT = charRTC := by
  funext p
  simp only [charRT, charRTC, get_opC_eq]

set_option maxRecDepth 10000 in
/-- C6: for every entry of the server character-to-bits table, the fyve
reader consumes exactly the entry's bit pattern and get_char maps the
resulting code back to the same character through the client table; and
the reserved code points 0b00000 and a self-contained 0b11111 appear in
neither table. -/
theorem C6_alphabet_roundtrip :
    CHARS_server.all charRT = true
    ∧ CHARS_client.all (fun p => (p.1 != 0) && (p.1 != 31)) = true
    ∧ CHARS_server.all (fun p =>
        (p.2 != [false, false, false, false, false])
        && (p.2 != [true, true, true, true, true])) = true := by
  refine ⟨?_, by decide, by decide⟩
  rw [charRT_eq]
  decide

/-! ## Lemmas and claims: the v1 event codecs -/

theorem fromSlice_flat (bs : List Nat) : fromSliceMsb0 bs = bs.flatMap (toBits 8) := by
  induction bs with
  | nil => rfl
  | cons b rest ih => rw [fromSliceMsb0_cons, List.flatMap_cons, ih]

theorem readBytes_err : ∀ (k : Nat) (d : BitDecoder), 1 ≤ k →
    d.frame.length < d.position + 8 * k →
    readBytes d k = .error ⟨0b1000, "Out of bound", .SizeConstraintViolation⟩
  | k + 1, d, _, h => by
      by_cases h8 : d.position + 8 ≤ d.frame.length
      · have hk : 1 ≤ k := by omega
        rw [readBytes, read_data_ok d 8 h8]
        dsimp only
        rw [readBytes_err k ⟨d.frame, d.position + 8⟩ hk (by simp only; omega)]
      · rw [readBytes, read_data_err d 8 (by omega)]

theorem readBytes_exact : ∀ (bytes : List Nat) (A C : List Bool),
    (∀ b ∈ bytes, b < 256) →
    readBytes ⟨A ++ (bytes.flatMap (toBits 8) ++ C), A.length⟩ bytes.length
      = .ok (bytes, ⟨A ++ (bytes.flatMap (toBits 8) ++ C), A.length + 8 * bytes.length⟩)
  | [], A, C, _ => by
      simp only [List.flatMap_nil, List.length_nil, Nat.mul_zero, Nat.add_zero]
      rfl
  | b :: bs, A, C, hlt => by
      have hb : b < 256 := hlt b (List.mem_cons_self b bs)
      have hassoc : A ++ ((b :: bs).flatMap (toBits 8) ++ C)
          = A ++ (toBits 8 b ++ (bs.flatMap (toBits 8) ++ C)) := by
        simp [List.flatMap_cons, List.append_assoc]
      rw [hassoc, show (b :: bs).length = bs.length + 1 from rfl, readBytes,
        read_field A (bs.flatMap (toBits 8) ++ C) 8 b (by norm_num)]
      dsimp only
      have hassoc2 : A ++ (toBits 8 b ++ (bs.flatMap (toBits 8) ++ C))
          = (A ++ toBits 8 b) ++ (bs.flatMap (toBits 8) ++ C) := by
        simp [List.append_assoc]
      rw [show A.length + 8 = (A ++ toBits 8 b).length by simp [toBits_length], hassoc2,
        readBytes_exact bs (A ++ toBits 8 b) C (fun x hx => hlt x (List.mem_cons_of_mem b hx))]
      have hmod : b % 2 ^ 8 % 2 ^ 8 = b := by
        have h256 : (2 : Nat) ^ 8 = 256 := rfl
        rw [h256]
        omega
      have hlen : (A ++ toBits 8 b).length + 8 * bs.length = A.length + 8 * (bs.length + 1) := by
        simp only [List.length_append, toBits_length]
        omega
      rw [hmod, hlen]

theorem readBytes_exact0 (bytes : List Nat) (h : ∀ b ∈ bytes, b < 256) :
    readBytes ⟨bytes.flatMap (toBits 8), 0⟩ bytes.length
      = .ok (bytes, ⟨bytes.flatMap (toBits 8), 8 * bytes.length⟩) := by
  have h2 := readBytes_exact bytes [] [] h
  simpa using h2

theorem r0x0006_decode_err (d : BitDecoder) :
    r0x0006_decode d = .err ⟨0b1000, "Out of bound", .SizeConstraintViolation⟩ := by
  unfold r0x0006_decode
  by_cases h1 : d.position + 32 ≤ d.frame.length
  · rw [read_data_ok d 32 h1]
    dsimp only
    by_cases h2 : d.position + 32 + 32 ≤ d.frame.length
    · rw [read_data_ok ⟨d.frame, d.position + 32⟩ 32 (by simp only; omega)]
      dsimp only
      have hdm := Nat.div_add_mod d.frame.length 8
      have hm : d.frame.length % 8 < 8 := Nat.mod_lt _ (by norm_num)
      rw [readBytes_err (d.frame.length / 8) ⟨d.frame, d.position + 32 + 32⟩
        (by omega)
        (show d.frame.length < d.position + 32 + 32 + 8 * (d.frame.length / 8) by omega)]
    · rw [read_data_err ⟨d.frame, d.position + 32⟩ 32 (by simp only; omega)]
  · rw [read_data_err d 32 (by omega)]

set_option maxRecDepth 40000 in
/-- C7 (code_bug): the S5 interaction-response track does not succeed.
The server-side 0x0006 encode of request_id 0 and JSON value with field
test = 5 produces exactly the serde bytes of that object, and the JSON
model parses them back, so the failure is not in the JSON layer: after
FrameEncoder / FrameDecoder hand the client decoder over at bit position
120 of the 136-bit frame, InteractionResponse::decode loops
frame.len() / 8 = 17 times reading 8 bits each, which necessarily crosses
the end of the buffer, so the decode that the repository test
t0x0006_event_decoding_full_track.rs expects to succeed returns the
Out of bound SizeConstraintViolation error instead of request_id 0 with
the JSON value. -/
theorem C7_interaction_response_track :
    Json.toBytes s5Response = [123, 34, 116, 101, 115, 116, 34, 58, 53, 125]
    ∧ jsonParse (Json.toBytes s5Response) = some s5Response
    ∧ s5Track = .err ⟨0b1000, "Out of bound", .SizeConstraintViolation⟩ :=
  ⟨rfl, rfl, rfl⟩

/-- C8 (corrected): invalid UTF-8 is not uniformly a BadRequest error with
code 400.  (1) ComponentNeedsRequest::decode (0x0000) crashes on invalid
UTF-8, because String::from_utf8(bytes).unwrap() panics.  (2)
HtmlFileResponse::read_utf8_chain (0x0001) does return a BadRequest error,
but with code 401, not 400.  (3) InteractionResponse::decode (0x0006)
never reaches its UTF-8 handling at all: its byte loop runs
frame.len() / 8 times over the whole frame length, which always crosses
the end of the buffer, so every call returns the Out of bound
SizeConstraintViolation error. -/
theorem C8_invalid_utf8_outcomes :
    (∀ bytes : List Nat, (∀ b ∈ bytes, b < 256) → utf8Decode bytes = none →
      r0x0000_decode ⟨bytes.flatMap (toBits 8), 0⟩ (8 * bytes.length) = .crash)
    ∧ (∀ bytes : List Nat, (∀ b ∈ bytes, b < 256) → utf8Decode bytes = none →
      read_utf8_chain ⟨bytes.flatMap (toBits 8), 0⟩ bytes.length
        = .error ⟨401, "Invalid UTF-8", .BadRequest⟩)
    ∧ (∀ d : BitDecoder,
      r0x0006_decode d = .err ⟨0b1000, "Out of bound", .SizeConstraintViolation⟩) := by
  refine ⟨?_, ?_, r0x0006_decode_err⟩
  · intro bytes hb hu
    unfold r0x0000_decode
    rw [show 8 * bytes.length / 8 = bytes.length by omega, readBytes_exact0 bytes hb]
    dsimp only
    rw [hu]
  · intro bytes hb hu
    unfold read_utf8_chain
    rw [readBytes_exact0 bytes hb]
    dsimp only
    rw [hu]

/-- Witness for C8: the single byte 0xFF is not valid UTF-8; on it the
0x0000 decoder crashes and read_utf8_chain answers 401, and on an empty
64-bit frame the 0x0006 decoder answers Out of bound. -/
theorem C8_invalid_utf8_outcomes_witness :
    utf8Decode [255] = none
    ∧ r0x0000_decode ⟨List.flatMap [255] (toBits 8), 0⟩ (8 * (List.length [255])) = .crash
    ∧ read_utf8_chain ⟨List.flatMap [255] (toBits 8), 0⟩ (List.length [255])
        = .error ⟨401, "Invalid UTF-8", .BadRequest⟩
    ∧ r0x0006_decode (BitDecoder.new [0, 0, 0, 0, 0, 0, 0, 0])
        = .err ⟨0b1000, "Out of bound", .SizeConstraintViolation⟩ :=
  ⟨rfl,
   C8_invalid_utf8_outcomes.1 [255] (by decide) rfl,
   C8_invalid_utf8_outcomes.2.1 [255] (by decide) rfl,
   C8_invalid_utf8_outcomes.2.2 (BitDecoder.new [0, 0, 0, 0, 0, 0, 0, 0])⟩

set_option maxRecDepth 40000 in
/-- Counterexample for C8 as stated: a full server-side track (frame
encode, frame decode, 0x0000 decode) on the one-byte payload 0xFF, which
is not valid UTF-8, ends in a panic (crash), not in a code-400 BadRequest
error. -/
theorem C8_counterexample : c8Track = .crash ∧ utf8Decode [255] = none :=
  ⟨rfl, rfl⟩

set_option maxRecDepth 40000 in
/-- C10 (confirmed): InteractionRequest::decode (0x0005) panics on
malformed input.  With request id 0: a post-id region "test" with no 0x00
separator leaves parts[1] out of bounds (crash); "f\x00p\x00\x00bad\x00"
has object_id "bad", whose parse::<i32>().unwrap() panics; "f\x00p\x00\x00\x00x"
has params "x", whose serde_json unwrap panics.  A well-formed region
"f\x00p\x00tok\x005\x007" decodes fine, so the crashes are specific to
the malformed fields. -/
theorem C10_interaction_request_panics :
    r0x0005_decode (BitDecoder.new ([0, 0, 0, 0, 0, 0, 0, 0] ++ [116, 101, 115, 116])) = .crash
    ∧ r0x0005_decode (BitDecoder.new
        ([0, 0, 0, 0, 0, 0, 0, 0] ++ [102, 0, 112, 0, 0, 98, 97, 100, 0])) = .crash
    ∧ r0x0005_decode (BitDecoder.new
        ([0, 0, 0, 0, 0, 0, 0, 0] ++ [102, 0, 112, 0, 0, 0, 120])) = .crash
    ∧ r0x0005_decode (BitDecoder.new
        ([0, 0, 0, 0, 0, 0, 0, 0] ++ [102, 0, 112, 0, 116, 111, 107, 0, 53, 0, 55]))
      = .ok ⟨0, [102], [112], some 5, some (.num 7), some [116, 111, 107]⟩ :=
  ⟨rfl, rfl, rfl, rfl⟩

end SHDP
